import Mathlib

/-!
Shallow embedding of the minibot repository (src/minibot.py and src/pipbot.py):
two Discord bots that extract puzzle-solve times from chat messages, persist
one solve record per (user, guild, puzzle-instance) key in a SQLite table, and
render dense-ranked leaderboards.

Modelling conventions:
- The peewee table is a `List Solve`; `get_or_create` is a `find?` on the
  unique-key fields followed by an append, and `solve.save()` after a field
  mutation is `updateFirst` (peewee updates the single fetched row).
- Discord I/O (reactions, embeds, message deletion) is reflected in an
  `Outcome` value; the image fetches of the anti-spoof check and the
  member/display-name resolution are oracle function parameters.
- Python regexes are compiled by hand to deterministic matchers over
  `List Char`; the only true backtracking choice points in the three patterns
  (the optional hours group and the 1-or-2-digit components) are enumerated
  explicitly in the order Python's engine tries them.  `\d` and `\w` are
  modelled as their ASCII classes.
-/

/-- Numeric value of a decimal digit character. -/
def digitVal (c : Char) : Nat := c.toNat - '0'.toNat

/-- Python `int()` applied to a (non-empty) string of decimal digits. -/
def decVal (cs : List Char) : Nat := cs.foldl (fun acc c => acc * 10 + digitVal c) 0

/-- Python `str.split(":")`: split at every colon, keeping empty pieces. -/
def splitColon : List Char → List (List Char)
  | [] => [[]]
  | c :: rest =>
    if c = ':' then [] :: splitColon rest
    else
      match splitColon rest with
      | [] => [[c]]
      | g :: gs => (c :: g) :: gs

/-- `sum(60 ** i * x for i, x in enumerate(map(int, reversed(t.split(":")))))`,
the duration-to-seconds conversion both bots apply to a matched time group. -/
def pySeconds (t : String) : Nat :=
  (((splitColon t.toList).reverse.map decVal).enum.map (fun p => 60 ^ p.1 * p.2)).sum

/-- Match a literal string at the front; return the remainder on success. -/
def dropLit : List Char → List Char → Option (List Char)
  | [], cs => some cs
  | _ :: _, [] => none
  | l :: ls, c :: cs => if c = l then dropLit ls cs else none

/-- Match one expected character at the front. -/
def expectChar (c : Char) : List Char → Option (List Char)
  | [] => none
  | x :: xs => if x = c then some xs else none

/-- Match exactly `n` characters of class `p` (a counted class repetition). -/
def classN (p : Char → Bool) : Nat → List Char → Option (List Char × List Char)
  | 0, cs => some ([], cs)
  | _ + 1, [] => none
  | n + 1, c :: cs =>
    if p c then (classN p n cs).map (fun q => (c :: q.1, q.2)) else none

/-- Greedy `+` repetition of class `p`: the maximal non-empty leading run.
Wherever the bots' patterns use `+`, the next pattern atom cannot match a
character of `p`, so the greedy run is the only run a backtracking engine can
accept. -/
def classPlus (p : Char → Bool) (cs : List Char) : Option (List Char × List Char) :=
  let q := cs.span p
  if q.1.isEmpty then none else some q

/-- `\d{1,2}` in front of a delimiter that is not a digit: a backtracking
engine accepts exactly a 1- or 2-digit maximal run. -/
def digits12 (cs : List Char) : Option (List Char × List Char) :=
  let q := cs.span Char.isDigit
  if q.1.length = 1 || q.1.length = 2 then some q else none

def digitsN (n : Nat) : List Char → Option (List Char × List Char) := classN Char.isDigit n

def digitsPlus : List Char → Option (List Char × List Char) := classPlus Char.isDigit

/-- The class `[a-fA-F0-9]` of the checksum group. -/
def isHexDigit (c : Char) : Bool :=
  c.isDigit || ('a' ≤ c && c ≤ 'f') || ('A' ≤ c && c ≤ 'F')

/-- ASCII `\w`. -/
def isWordChar (c : Char) : Bool := c.isAlphanum || c = '_'

/-- ASCII `.` outside DOTALL mode: anything but a newline. -/
def isNotNL (c : Char) : Bool := c ≠ '\n'

/-- One alternative of the duration atom `(?:\d+:)?\d{1,2}:\d{2}`: `hrs` says
whether the optional `\d+:` group participates, `w` is the width taken by
`\d{1,2}`.  Returns (matched characters, remainder). -/
def durAlt (hrs : Bool) (w : Nat) (cs : List Char) : Option (List Char × List Char) := do
  let (pre, r) ←
    if hrs then do
      let (h, r1) ← digitsPlus cs
      let r2 ← expectChar ':' r1
      pure (h ++ [':'], r2)
    else pure (([] : List Char), cs)
  let (m, r3) ← digitsN w r
  let r4 ← expectChar ':' r3
  let (s, r5) ← digitsN 2 r4
  return (pre ++ m ++ ':' :: s, r5)

/-- `(?:\d+:)?\d{1,2}:\d{2}` with no following pattern atom (pipbot's use):
the four alternatives in the order a backtracking engine tries them. -/
def durMatch (cs : List Char) : Option (List Char × List Char) :=
  durAlt true 2 cs <|> durAlt true 1 cs <|> durAlt false 2 cs <|> durAlt false 1 cs

/-- The literal tail of NEW_PATTERN that follows the duration group. -/
def newTail : List Char := "! https://www.nytimes.com/crosswords/game/mini".toList

/-- The duration group of NEW_PATTERN together with the literal tail after it:
each duration alternative is accepted only if the tail matches right after it,
exactly as the engine backtracks through the alternatives. -/
def durThenTail (cs : List Char) : Option (List Char × List Char) :=
  (durAlt true 2 cs).bind (fun q => (dropLit newTail q.2).map (fun r => (q.1, r)))
    <|> (durAlt true 1 cs).bind (fun q => (dropLit newTail q.2).map (fun r => (q.1, r)))
    <|> (durAlt false 2 cs).bind (fun q => (dropLit newTail q.2).map (fun r => (q.1, r)))
    <|> (durAlt false 1 cs).bind (fun q => (dropLit newTail q.2).map (fun r => (q.1, r)))

/-- BADGE_PATTERN of minibot.py, applied with `re.match` (anchored at the
start, trailing text free); captures the groups (d, t, c). -/
def badgeMatch (content : String) : Option (String × String × String) := do
  let r0 ← dropLit ("https://www.nytimes.com/badges/games/mini.html?d=".toList) content.toList
  let (y, r1) ← digitsN 4 r0
  let r2 ← expectChar '-' r1
  let (mo, r3) ← digitsN 2 r2
  let r4 ← expectChar '-' r3
  let (dy, r5) ← digitsN 2 r4
  let r6 ← dropLit ("&t=".toList) r5
  let (t, r7) ← digitsPlus r6
  let r8 ← dropLit ("&c=".toList) r7
  let (c, _) ← classPlus isHexDigit r8
  return (String.mk (y ++ '-' :: mo ++ '-' :: dy), String.mk t, String.mk c)

/-- NEW_PATTERN of minibot.py, applied with `re.match`; captures the groups
(date string, duration string). -/
def newMatch (content : String) : Option (String × String) := do
  let r0 ← dropLit ("I solved the ".toList) content.toList
  let (mo, r1) ← digits12 r0
  let r2 ← expectChar '/' r1
  let (dy, r3) ← digits12 r2
  let r4 ← expectChar '/' r3
  let (y, r5) ← digitsN 4 r4
  let r6 ← dropLit (" New York Times Mini Crossword in ".toList) r5
  let (dur, _) ← durThenTail r6
  return (String.mk (mo ++ '/' :: dy ++ '/' :: y), String.mk dur)

/-- BADGE_PATTERN of pipbot.py, applied with `re.match`; captures the groups
(version, difficulty, duration).  `re.MULTILINE` only changes `^`/`$`, which
the pattern does not use; `.` still stops at a newline. -/
def pipsMatch (content : String) : Option (String × String × String) := do
  let r0 ← dropLit ("Pips #".toList) content.toList
  let (v, r1) ← digitsPlus r0
  let r2 ← expectChar ' ' r1
  let (w, r3) ← classPlus isWordChar r2
  let r4 ← expectChar ' ' r3
  let (_, r5) ← classPlus isNotNL r4
  let r6 ← expectChar '\n' r5
  let (dur, _) ← durMatch r6
  return (String.mk v, String.mk w, String.mk dur)

/-- Python `"%0Nd" % n` for non-negative `n`. -/
def padZero (width n : Nat) : String :=
  let s := toString n
  String.mk (List.replicate (width - s.length) '0') ++ s

/-- A `datetime.date`. -/
structure Date where
  year : Nat
  month : Nat
  day : Nat
deriving DecidableEq

def isLeapYear (y : Nat) : Bool := (y % 4 = 0 && y % 100 ≠ 0) || y % 400 = 0

def daysInMonth (y m : Nat) : Nat :=
  if m = 2 then (if isLeapYear y then 29 else 28)
  else if m = 4 || m = 6 || m = 9 || m = 11 then 30
  else 31

/-- The range checks `datetime.date` (hence `strptime(...).date()`) enforces. -/
def validDate (y m d : Nat) : Bool :=
  1 ≤ y && y ≤ 9999 && 1 ≤ m && m ≤ 12 && 1 ≤ d && d ≤ daysInMonth y m

/-- `datetime.datetime.strptime(s, "%Y-%m-%d").date()` on the badge date
group; `none` models the ValueError raised for an out-of-range date. -/
def strptimeYMD (s : String) : Option Date := do
  let (y, r1) ← digitsN 4 s.toList
  let r2 ← expectChar '-' r1
  let (m, r3) ← digitsN 2 r2
  let r4 ← expectChar '-' r3
  let (d, r5) ← digitsN 2 r4
  if r5 = [] ∧ validDate (decVal y) (decVal m) (decVal d) then
    some ⟨decVal y, decVal m, decVal d⟩
  else none

/-- `datetime.datetime.strptime(s, "%m/%d/%Y").date()` on the narrative date
group (`%m` and `%d` accept 1 or 2 digits). -/
def strptimeMDY (s : String) : Option Date := do
  let (m, r1) ← digits12 s.toList
  let r2 ← expectChar '/' r1
  let (d, r3) ← digits12 r2
  let r4 ← expectChar '/' r3
  let (y, r5) ← digitsN 4 r4
  if r5 = [] ∧ validDate (decVal y) (decVal m) (decVal d) then
    some ⟨decVal y, decVal m, decVal d⟩
  else none

/-- A resolved `disnake.Member`: the id and the display name the bots use. -/
structure Member where
  id : Nat
  display_name : String
deriving DecidableEq

/-- `disnake.Color.gold()` is the only colour either bot ever sets. -/
inductive Color where
  | gold
deriving DecidableEq

/-- Replace the first list element satisfying `p` by its image under `f`;
models `solve.save()` writing back the single row `get_or_create` fetched. -/
def updateFirst {α : Type} (p : α → Bool) (f : α → α) : List α → List α
  | [] => []
  | s :: rest => if p s then f s :: rest else s :: updateFirst p f rest

/-- `if last_seconds is not None and solve.seconds > last_seconds:
position += 1` — the position update of both `get_leaderboard` loops. -/
def rankStep (position : Nat) (last_seconds : Option Nat) (seconds : Nat) : Nat :=
  match last_seconds with
  | some l => if seconds > l then position + 1 else position
  | none => position

/-- The position-assignment loop shared by both `get_leaderboard` methods:
`position = 1; for solve in solves: ...; last_seconds = solve.seconds`.
Pairs each element with its assigned position. -/
def rankLoop {α : Type} (sec : α → Nat) : Nat → Option Nat → List α → List (Nat × α)
  | _, _, [] => []
  | position, last_seconds, solve :: rest =>
    (rankStep position last_seconds (sec solve), solve) ::
      rankLoop sec (rankStep position last_seconds (sec solve)) (some (sec solve)) rest

namespace Minibot

/-- `format_time` of minibot.py: `divmod(seconds, 60)` then "m:ss". -/
def format_time (seconds : Nat) : String :=
  let minutes := seconds / 60
  let secs := seconds % 60
  toString minutes ++ ":" ++ padZero 2 secs

/-- `format_date` of minibot.py. -/
def format_date (date : Date) : String :=
  padZero 4 date.year ++ "-" ++ padZero 2 date.month ++ "-" ++ padZero 2 date.day

/-- A row of the `Solve` table of minibot.py.  The unique index is
(user_id, guild_id, date); `timestamp` records the first write. -/
structure Solve where
  user_id : Nat
  guild_id : Nat
  timestamp : Nat
  date : Date
  seconds : Nat
  checksum : String
deriving DecidableEq

/-- The natural key of the unique index `(("user_id", "guild_id", "date"), True)`. -/
def Solve.key (s : Solve) : Nat × Nat × Date := (s.user_id, s.guild_id, s.date)

/-- At most one row per (user_id, guild_id, date): the unique index. -/
def uniqueKey (store : List Solve) : Prop := (store.map Solve.key).Nodup

/-- The row filter of `Solve.get_or_create(user_id=..., guild_id=..., date=...)`. -/
def keyMatch (user_id guild_id : Nat) (date : Date) (s : Solve) : Bool :=
  decide (s.user_id = user_id ∧ s.guild_id = guild_id ∧ s.date = date)

structure LeaderboardEntry where
  position : Nat
  member : Member
  seconds : Nat
deriving DecidableEq

structure Leaderboard where
  date : Date
  entries : List LeaderboardEntry
deriving DecidableEq

/-- `Leaderboard.render` of minibot.py. -/
def Leaderboard.render (lb : Leaderboard) : String :=
  if lb.entries = [] then "No leaderboard for " ++ format_date lb.date
  else
    String.intercalate "\n"
      (lb.entries.map (fun entry =>
        toString entry.position ++ ". " ++ entry.member.display_name ++ " (" ++
          format_time entry.seconds ++ ")" ++
          (if entry.position = 1 then " :crown:" else "")))

/-- The ordering of `order_by(Solve.seconds.asc(), Solve.timestamp.asc())`:
ascending seconds, ties broken by ascending timestamp. -/
def solveLE (a b : Solve) : Prop :=
  a.seconds < b.seconds ∨ (a.seconds = b.seconds ∧ a.timestamp ≤ b.timestamp)

instance : DecidableRel solveLE := fun a b => by unfold solveLE; exact inferInstance

/-- `Solve.filter(guild_id=..., date=...).order_by(Solve.seconds.asc(),
Solve.timestamp.asc())`.  SQL fixes the result only up to reordering of rows
that tie on both sort keys; insertion sort by `solveLE` realizes it. -/
def querySolves (store : List Solve) (guild_id : Nat) (date : Date) : List Solve :=
  (store.filter (fun s => decide (s.guild_id = guild_id ∧ s.date = date))).insertionSort solveLE

/-- `Bot.get_leaderboard` of minibot.py; `memberOf` models
`guild.get_member` after a successful `get_or_fetch_members`. -/
def get_leaderboard (store : List Solve) (memberOf : Nat → Member)
    (guild_id : Nat) (date : Date) : Leaderboard :=
  ⟨date,
   (rankLoop Solve.seconds 1 none (querySolves store guild_id date)).map
     (fun q => ⟨q.1, memberOf q.2.user_id, q.2.seconds⟩)⟩

/-- What `on_mini_crossword_solve` computes: the store after the upsert, the
leaderboard it queries, and the embed highlight colour. -/
structure SolveOutcome where
  store : List Solve
  leaderboard : Leaderboard
  color : Option Color
deriving DecidableEq

/-- `Bot.on_mini_crossword_solve` of minibot.py (the pure content: the
`get_or_create`-then-correct upsert, the leaderboard query and the highlight
colour of the reply embed). -/
def on_mini_crossword_solve (memberOf : Nat → Member) (store : List Solve)
    (author_id guild_id now : Nat) (date : Date) (seconds : Nat) (checksum : String) :
    SolveOutcome :=
  let store' :=
    match store.find? (keyMatch author_id guild_id date) with
    | none => store ++ [⟨author_id, guild_id, now, date, seconds, checksum⟩]
    | some solve =>
      if solve.seconds ≠ seconds then
        updateFirst (keyMatch author_id guild_id date)
          (fun s => { s with seconds := seconds, checksum := checksum }) store
      else store
  let leaderboard := get_leaderboard store' memberOf guild_id date
  let color := leaderboard.entries.foldl
    (fun color entry =>
      if entry.position = 1 && entry.member.id = author_id then some Color.gold else color)
    none
  ⟨store', leaderboard, color⟩

/-- The externally visible effect of one `on_message` call. -/
inductive Outcome where
  /-- `message.author.bot` was set: the handler returned at once. -/
  | ignored_bot
  /-- The badge matched but the parameterized image equalled the baseline:
  the NO ENTRY SIGN reaction was added and nothing was stored. -/
  | spoof_rejected
  /-- A solve was recorded and the leaderboard embed sent. -/
  | solved (r : SolveOutcome)
  /-- `strptime` raised on the matched date group. -/
  | date_error
  /-- The `%nyt ` command branch ran (leaderboard / dump: read-only). -/
  | command
  /-- No pattern matched at the start of the message. -/
  | no_match
deriving DecidableEq

/-- `Bot.on_message` of minibot.py.  `fetchParam c d t` and `fetchBase` are
the two byte-exact image fetches of the anti-spoof check. -/
def on_message (fetchParam : String → String → String → List Nat) (fetchBase : List Nat)
    (memberOf : Nat → Member) (store : List Solve)
    (author_bot : Bool) (author_id guild_id now : Nat) (content : String) :
    Outcome × List Solve :=
  if author_bot then (.ignored_bot, store)
  else
    match badgeMatch content with
    | some (d, t, c) =>
      if fetchParam c d t = fetchBase then (.spoof_rejected, store)
      else
        match strptimeYMD d with
        | none => (.date_error, store)
        | some date =>
          let r := on_mini_crossword_solve memberOf store author_id guild_id now date
            (decVal t.toList) c
          (.solved r, r.store)
    | none =>
      match newMatch content with
      | some (d, t) =>
        match strptimeMDY d with
        | none => (.date_error, store)
        | some date =>
          let r := on_mini_crossword_solve memberOf store author_id guild_id now date
            (pySeconds t) ""
          (.solved r, r.store)
      | none =>
        if ("%nyt ".toList).isPrefixOf content.toList then (.command, store)
        else (.no_match, store)

/-- The stores reachable from the empty table through `on_message` calls. -/
inductive Reachable : List Solve → Prop
  | init : Reachable []
  | step (fetchParam fetchBase memberOf author_bot author_id guild_id now content)
      (store : List Solve) : Reachable store →
      Reachable (on_message fetchParam fetchBase memberOf store
        author_bot author_id guild_id now content).2

end Minibot

namespace Pipbot

/-- `format_time` of pipbot.py (identical to minibot's). -/
def format_time (seconds : Nat) : String :=
  let minutes := seconds / 60
  let secs := seconds % 60
  toString minutes ++ ":" ++ padZero 2 secs

/-- A row of the `Solve` table of pipbot.py.  The unique index is
(user_id, guild_id, difficulty, version). -/
structure Solve where
  user_id : Nat
  guild_id : Nat
  timestamp : Nat
  difficulty : String
  version : Nat
  seconds : Nat
deriving DecidableEq

/-- The natural key of the unique index
`(("user_id", "guild_id", "difficulty", "version"), True)`. -/
def Solve.key (s : Solve) : Nat × Nat × String × Nat :=
  (s.user_id, s.guild_id, s.difficulty, s.version)

/-- At most one row per (user_id, guild_id, difficulty, version). -/
def uniqueKey (store : List Solve) : Prop := (store.map Solve.key).Nodup

/-- The row filter of `Solve.get_or_create(user_id=..., guild_id=...,
version=..., difficulty=...)`. -/
def keyMatch (user_id guild_id : Nat) (version : Nat) (difficulty : String) (s : Solve) : Bool :=
  decide (s.user_id = user_id ∧ s.guild_id = guild_id ∧
    s.version = version ∧ s.difficulty = difficulty)

structure LeaderboardEntry where
  position : Nat
  member : Member
  seconds : Nat
deriving DecidableEq

structure Leaderboard where
  version : Nat
  difficulty : String
  entries : List LeaderboardEntry
deriving DecidableEq

/-- `Leaderboard.render` of pipbot.py: the empty message interpolates only
`self.version`, not the difficulty. -/
def Leaderboard.render (lb : Leaderboard) : String :=
  if lb.entries = [] then "No leaderboard for " ++ toString lb.version
  else
    String.intercalate "\n"
      (lb.entries.map (fun entry =>
        toString entry.position ++ ". " ++ entry.member.display_name ++ " (" ++
          format_time entry.seconds ++ ")" ++
          (if entry.position = 1 then " :crown:" else "")))

/-- The ordering of `order_by(Solve.seconds.asc(), Solve.timestamp.asc())`. -/
def solveLE (a b : Solve) : Prop :=
  a.seconds < b.seconds ∨ (a.seconds = b.seconds ∧ a.timestamp ≤ b.timestamp)

instance : DecidableRel solveLE := fun a b => by unfold solveLE; exact inferInstance

/-- `Solve.filter(...).order_by(Solve.seconds.asc(), Solve.timestamp.asc())`;
see the note on `Minibot.querySolves` about ties. -/
def querySolves (store : List Solve) (guild_id : Nat) (version : Nat) (difficulty : String) :
    List Solve :=
  (store.filter (fun s =>
    decide (s.guild_id = guild_id ∧ s.difficulty = difficulty ∧ s.version = version))).insertionSort
    solveLE

/-- `Bot.get_leaderboard` of pipbot.py. -/
def get_leaderboard (store : List Solve) (memberOf : Nat → Member)
    (guild_id : Nat) (version : Nat) (difficulty : String) : Leaderboard :=
  ⟨version, difficulty,
   (rankLoop Solve.seconds 1 none (querySolves store guild_id version difficulty)).map
     (fun q => ⟨q.1, memberOf q.2.user_id, q.2.seconds⟩)⟩

structure SolveOutcome where
  store : List Solve
  leaderboard : Leaderboard
  color : Option Color
deriving DecidableEq

/-- `Bot.on_pip_solve` of pipbot.py. -/
def on_pip_solve (memberOf : Nat → Member) (store : List Solve)
    (author_id guild_id now : Nat) (version : Nat) (difficulty : String) (seconds : Nat) :
    SolveOutcome :=
  let store' :=
    match store.find? (keyMatch author_id guild_id version difficulty) with
    | none => store ++ [⟨author_id, guild_id, now, difficulty, version, seconds⟩]
    | some solve =>
      if solve.seconds ≠ seconds then
        updateFirst (keyMatch author_id guild_id version difficulty)
          (fun s => { s with seconds := seconds }) store
      else store
  let leaderboard := get_leaderboard store' memberOf guild_id version difficulty
  let color := leaderboard.entries.foldl
    (fun color entry =>
      if entry.position = 1 && entry.member.id = author_id then some Color.gold else color)
    none
  ⟨store', leaderboard, color⟩

/-- The externally visible effect of one pipbot `on_message` call. -/
inductive Outcome where
  | ignored_bot
  | solved (r : SolveOutcome)
  /-- The `%pip ` command branch ran (dump or the help reply: read-only). -/
  | command
  | no_match
deriving DecidableEq

/-- `Bot.on_message` of pipbot.py. -/
def on_message (memberOf : Nat → Member) (store : List Solve)
    (author_bot : Bool) (author_id guild_id now : Nat) (content : String) :
    Outcome × List Solve :=
  if author_bot then (.ignored_bot, store)
  else
    match pipsMatch content with
    | some (v, difficulty, t) =>
      let r := on_pip_solve memberOf store author_id guild_id now
        (decVal v.toList) difficulty (pySeconds t)
      (.solved r, r.store)
    | none =>
      if ("%pip ".toList).isPrefixOf content.toList then (.command, store)
      else (.no_match, store)

/-- The stores reachable from the empty table through `on_message` calls. -/
inductive Reachable : List Solve → Prop
  | init : Reachable []
  | step (memberOf author_bot author_id guild_id now content) (store : List Solve) :
      Reachable store →
      Reachable (on_message memberOf store author_bot author_id guild_id now content).2

end Pipbot

/-! ## General lemmas about the modelling helpers -/

theorem find?_middle {α : Type} (p : α → Bool) (pre post : List α) (s : α)
    (hpre : ∀ r ∈ pre, p r = false) (hs : p s = true) :
    (pre ++ s :: post).find? p = some s := by
  induction pre with
  | nil => simp [List.find?_cons, hs]
  | cons a l ih =>
    have ha : p a = false := hpre a (by simp)
    simp only [List.cons_append, List.find?_cons, ha]
    exact ih fun r hr => hpre r (List.mem_cons_of_mem _ hr)

theorem updateFirst_middle {α : Type} (p : α → Bool) (f : α → α) (pre post : List α) (s : α)
    (hpre : ∀ r ∈ pre, p r = false) (hs : p s = true) :
    updateFirst p f (pre ++ s :: post) = pre ++ f s :: post := by
  induction pre with
  | nil =>
    show updateFirst p f (s :: post) = f s :: post
    rw [updateFirst, if_pos hs]
  | cons a l ih =>
    have ha : p a = false := hpre a (by simp)
    show updateFirst p f (a :: (l ++ s :: post)) = a :: (l ++ f s :: post)
    rw [updateFirst, if_neg (by simp [ha])]
    rw [ih fun r hr => hpre r (List.mem_cons_of_mem _ hr)]

theorem map_updateFirst {α β : Type} (p : α → Bool) (f : α → α) (g : α → β)
    (hg : ∀ x, g (f x) = g x) :
    ∀ l : List α, (updateFirst p f l).map g = l.map g := by
  intro l
  induction l with
  | nil => rfl
  | cons a rest ih =>
    by_cases ha : p a = true
    · simp [updateFirst, ha, hg a]
    · simp [updateFirst, ha, ih]

theorem length_updateFirst {α : Type} (p : α → Bool) (f : α → α) :
    ∀ l : List α, (updateFirst p f l).length = l.length := by
  intro l
  induction l with
  | nil => rfl
  | cons a rest ih => by_cases ha : p a = true <;> simp [updateFirst, ha, ih]

theorem nodup_map_split {α β : Type} (g : α → β) {l : List α} {s : α}
    (hu : (l.map g).Nodup) (hs : s ∈ l) :
    ∃ pre post, l = pre ++ s :: post ∧
      (∀ r ∈ pre, g r ≠ g s) ∧ (∀ r ∈ post, g r ≠ g s) := by
  obtain ⟨pre, post, rfl⟩ := List.append_of_mem hs
  rw [List.map_append, List.map_cons, List.nodup_append] at hu
  obtain ⟨_, hcons, hdisj⟩ := hu
  refine ⟨pre, post, rfl, ?_, ?_⟩
  · intro r hr heq
    exact hdisj (List.mem_map_of_mem g hr) (heq ▸ List.mem_cons_self _ _)
  · intro r hr heq
    exact (List.nodup_cons.mp hcons).1 (heq ▸ List.mem_map_of_mem g hr)

theorem rankLoop_length {α : Type} (sec : α → Nat) :
    ∀ (l : List α) (pos : Nat) (last : Option Nat),
      (rankLoop sec pos last l).length = l.length := by
  intro l
  induction l with
  | nil => intro pos last; rfl
  | cons a rest ih => intro pos last; simp [rankLoop, ih]

theorem rankLoop_first {α : Type} (sec : α → Nat) :
    ∀ (l : List α) (pos : Nat) (h : 0 < (rankLoop sec pos none l).length),
      (rankLoop sec pos none l).get ⟨0, h⟩ = ((pos, l.get ⟨0, by
        rw [rankLoop_length] at h; exact h⟩) : Nat × α) := by
  intro l
  match l with
  | [] => intro pos h; simp [rankLoop] at h
  | a :: rest => intro pos h; rfl

theorem rankLoop_adjacent {α : Type} (sec : α → Nat) :
    ∀ (l : List α) (pos : Nat) (last : Option Nat) (i : Nat)
      (h2 : i + 1 < (rankLoop sec pos last l).length)
      (h1 : i < (rankLoop sec pos last l).length),
      ((rankLoop sec pos last l).get ⟨i + 1, h2⟩).1 =
        if sec ((rankLoop sec pos last l).get ⟨i, h1⟩).2 <
            sec ((rankLoop sec pos last l).get ⟨i + 1, h2⟩).2
        then ((rankLoop sec pos last l).get ⟨i, h1⟩).1 + 1
        else ((rankLoop sec pos last l).get ⟨i, h1⟩).1 := by
  intro l
  induction l with
  | nil => intro pos last i h2 h1; simp [rankLoop] at h1
  | cons a rest ih =>
    intro pos last i h2 h1
    cases i with
    | zero =>
      cases rest with
      | nil => simp [rankLoop] at h2
      | cons b rest' =>
        show (rankStep (rankStep pos last (sec a)) (some (sec a)) (sec b)) = _
        simp [rankLoop, rankStep, GT.gt]
    | succ j =>
      have h2' : j + 1 < (rankLoop sec (rankStep pos last (sec a)) (some (sec a)) rest).length := by
        simp only [rankLoop, List.length_cons] at h2
        omega
      have h1' : j < (rankLoop sec (rankStep pos last (sec a)) (some (sec a)) rest).length := by
        omega
      have := ih (rankStep pos last (sec a)) (some (sec a)) j h2' h1'
      simpa [rankLoop] using this

theorem foldl_highlight {α : Type} (p : α → Bool) :
    ∀ (l : List α) (c : Option Color),
      l.foldl (fun color e => if p e then some Color.gold else color) c =
        if ∃ e ∈ l, p e = true then some Color.gold else c := by
  intro l
  induction l with
  | nil => intro c; simp
  | cons a rest ih =>
    intro c
    simp only [List.foldl_cons]
    rw [ih]
    by_cases ha : p a = true <;> by_cases hr : ∃ e ∈ rest, p e = true <;>
      simp [ha, hr]

theorem splitColon_append (a : List Char) (rest : List Char) (ha : ':' ∉ a) :
    splitColon (a ++ ':' :: rest) = a :: splitColon rest := by
  induction a with
  | nil => simp [splitColon]
  | cons c a' ih =>
    have hc : ¬ c = ':' := fun h => ha (h ▸ List.mem_cons_self _ _)
    have ih' := ih fun h => ha (List.mem_cons_of_mem _ h)
    rw [List.cons_append]
    show (if c = ':' then [] :: splitColon (a' ++ ':' :: rest)
          else
            match splitColon (a' ++ ':' :: rest) with
            | [] => [[c]]
            | g :: gs => (c :: g) :: gs) = (c :: a') :: splitColon rest
    rw [if_neg hc, ih']

theorem splitColon_nocolon (a : List Char) (ha : ':' ∉ a) : splitColon a = [a] := by
  induction a with
  | nil => rfl
  | cons c a' ih =>
    have hc : ¬ c = ':' := fun h => ha (h ▸ List.mem_cons_self _ _)
    simp only [splitColon, if_neg hc]
    rw [ih fun h => ha (List.mem_cons_of_mem _ h)]

theorem classN_spec (p : Char → Bool) :
    ∀ (n : Nat) (cs a r : List Char), classN p n cs = some (a, r) →
      a.length = n ∧ ∀ c ∈ a, p c = true := by
  intro n
  induction n with
  | zero =>
    intro cs a r h
    simp only [classN, Option.some.injEq, Prod.mk.injEq] at h
    obtain ⟨rfl, rfl⟩ := h
    simp
  | succ m ih =>
    intro cs a r h
    match cs with
    | [] => simp [classN] at h
    | c :: cs' =>
      simp only [classN] at h
      by_cases hc : p c = true
      · rw [if_pos hc] at h
        cases hm : classN p m cs' with
        | none => rw [hm] at h; simp at h
        | some q =>
          rw [hm] at h
          simp only [Option.map_some', Option.some.injEq, Prod.mk.injEq] at h
          obtain ⟨rfl, rfl⟩ := h
          obtain ⟨hl, hd⟩ := ih cs' q.1 q.2 (by rw [hm])
          refine ⟨by simp [hl], ?_⟩
          intro x hx
          rcases List.mem_cons.mp hx with hx | hx
          · exact hx ▸ hc
          · exact hd x hx
      · rw [if_neg hc] at h; simp at h

theorem classPlus_spec (p : Char → Bool) (cs a r : List Char)
    (h : classPlus p cs = some (a, r)) : a ≠ [] ∧ ∀ c ∈ a, p c = true := by
  simp only [classPlus] at h
  by_cases he : (cs.span p).1.isEmpty
  · rw [if_pos he] at h; simp at h
  · rw [if_neg he] at h
    simp only [Option.some.injEq] at h
    have h1 : a = (cs.span p).1 := by rw [h]
    constructor
    · rw [h1]; intro hnil; rw [hnil] at he; simp at he
    · intro c hc
      rw [h1, List.span_eq_take_drop] at hc
      exact List.mem_takeWhile_imp hc

theorem digits12_spec (cs a r : List Char) (h : digits12 cs = some (a, r)) :
    (a.length = 1 ∨ a.length = 2) ∧ ∀ c ∈ a, c.isDigit = true := by
  simp only [digits12] at h
  by_cases hl : (cs.span Char.isDigit).1.length = 1 || (cs.span Char.isDigit).1.length = 2
  · rw [if_pos hl] at h
    simp only [Option.some.injEq] at h
    have h1 : a = (cs.span Char.isDigit).1 := by rw [h]
    constructor
    · rw [h1]; simpa using hl
    · intro c hc
      rw [h1, List.span_eq_take_drop] at hc
      exact List.mem_takeWhile_imp hc
  · rw [if_neg hl] at h; simp at h

theorem durAlt_false_eq (w : Nat) (cs : List Char) :
    durAlt false w cs =
      (digitsN w cs).bind (fun q =>
        (expectChar ':' q.2).bind (fun r4 =>
          (digitsN 2 r4).bind (fun q2 =>
            some (([] : List Char) ++ q.1 ++ ':' :: q2.1, q2.2)))) := rfl

theorem durAlt_true_eq (w : Nat) (cs : List Char) :
    durAlt true w cs =
      (digitsPlus cs).bind (fun q0 =>
        (expectChar ':' q0.2).bind (fun r2 =>
          (digitsN w r2).bind (fun q =>
            (expectChar ':' q.2).bind (fun r4 =>
              (digitsN 2 r4).bind (fun q2 =>
                some ((q0.1 ++ [':']) ++ q.1 ++ ':' :: q2.1, q2.2)))))) := rfl

theorem durAlt_false_spec (w : Nat) (cs dur rest : List Char)
    (h : durAlt false w cs = some (dur, rest)) :
    ∃ m s : List Char, dur = m ++ ':' :: s ∧ m.length = w ∧ s.length = 2 ∧
      (∀ c ∈ m, c.isDigit = true) ∧ (∀ c ∈ s, c.isDigit = true) := by
  rw [durAlt_false_eq] at h
  cases hm : digitsN w cs with
  | none => rw [hm] at h; simp at h
  | some q =>
    rw [hm, Option.some_bind] at h
    cases hr4 : expectChar ':' q.2 with
    | none => rw [hr4] at h; simp at h
    | some r4 =>
      rw [hr4, Option.some_bind] at h
      cases hs : digitsN 2 r4 with
      | none => rw [hs] at h; simp at h
      | some q2 =>
        rw [hs, Option.some_bind] at h
        simp only [Option.some.injEq, Prod.mk.injEq] at h
        obtain ⟨hdur, -⟩ := h
        obtain ⟨hml, hmd⟩ :=
          classN_spec Char.isDigit w cs q.1 q.2 (show classN Char.isDigit w cs = _ from hm)
        obtain ⟨hsl, hsd⟩ :=
          classN_spec Char.isDigit 2 r4 q2.1 q2.2 (show classN Char.isDigit 2 r4 = _ from hs)
        exact ⟨q.1, q2.1, by simpa using hdur.symm, hml, hsl, hmd, hsd⟩

theorem durAlt_true_spec (w : Nat) (cs dur rest : List Char)
    (h : durAlt true w cs = some (dur, rest)) :
    ∃ hh m s : List Char, dur = hh ++ ':' :: (m ++ ':' :: s) ∧ hh ≠ [] ∧
      m.length = w ∧ s.length = 2 ∧ (∀ c ∈ hh, c.isDigit = true) ∧
      (∀ c ∈ m, c.isDigit = true) ∧ (∀ c ∈ s, c.isDigit = true) := by
  rw [durAlt_true_eq] at h
  cases hp : digitsPlus cs with
  | none => rw [hp] at h; simp at h
  | some q0 =>
    rw [hp, Option.some_bind] at h
    cases hr2 : expectChar ':' q0.2 with
    | none => rw [hr2] at h; simp at h
    | some r2 =>
      rw [hr2, Option.some_bind] at h
      cases hm : digitsN w r2 with
      | none => rw [hm] at h; simp at h
      | some q =>
        rw [hm, Option.some_bind] at h
        cases hr4 : expectChar ':' q.2 with
        | none => rw [hr4] at h; simp at h
        | some r4 =>
          rw [hr4, Option.some_bind] at h
          cases hs : digitsN 2 r4 with
          | none => rw [hs] at h; simp at h
          | some q2 =>
            rw [hs, Option.some_bind] at h
            simp only [Option.some.injEq, Prod.mk.injEq] at h
            obtain ⟨hdur, -⟩ := h
            obtain ⟨hhne, hhd⟩ :=
              classPlus_spec Char.isDigit cs q0.1 q0.2
                (show classPlus Char.isDigit cs = _ from hp)
            obtain ⟨hml, hmd⟩ :=
              classN_spec Char.isDigit w r2 q.1 q.2 (show classN Char.isDigit w r2 = _ from hm)
            obtain ⟨hsl, hsd⟩ :=
              classN_spec Char.isDigit 2 r4 q2.1 q2.2 (show classN Char.isDigit 2 r4 = _ from hs)
            refine ⟨q0.1, q.1, q2.1, ?_, hhne, hml, hsl, hhd, hmd, hsd⟩
            rw [← hdur]
            simp [List.append_assoc]

theorem digits_no_colon {a : List Char} (ha : ∀ c ∈ a, c.isDigit = true) : ':' ∉ a := by
  intro hmem
  have := ha ':' hmem
  simp [Char.isDigit] at this

theorem pySeconds_two (m s : List Char) (hm : ':' ∉ m) (hs : ':' ∉ s) :
    pySeconds (String.mk (m ++ ':' :: s)) = 60 * decVal m + decVal s := by
  unfold pySeconds
  rw [show (String.mk (m ++ ':' :: s)).toList = m ++ ':' :: s from rfl]
  rw [splitColon_append m s hm, splitColon_nocolon s hs]
  simp [List.enum, List.enumFrom]
  omega

theorem pySeconds_three (hh m s : List Char) (hhh : ':' ∉ hh) (hm : ':' ∉ m)
    (hs : ':' ∉ s) :
    pySeconds (String.mk (hh ++ ':' :: (m ++ ':' :: s))) =
      3600 * decVal hh + 60 * decVal m + decVal s := by
  unfold pySeconds
  rw [show (String.mk (hh ++ ':' :: (m ++ ':' :: s))).toList = hh ++ ':' :: (m ++ ':' :: s)
    from rfl]
  rw [splitColon_append hh (m ++ ':' :: s) hhh, splitColon_append m s hm,
    splitColon_nocolon s hs]
  simp [List.enum, List.enumFrom]
  omega

theorem durThenTail_cases (cs dur rest : List Char)
    (h : durThenTail cs = some (dur, rest)) :
    (∃ w r2, durAlt true w cs = some (dur, r2)) ∨
      (∃ w r2, durAlt false w cs = some (dur, r2)) := by
  unfold durThenTail at h
  have grab : ∀ (hrs : Bool) (w : Nat) (v : List Char × List Char),
      ((durAlt hrs w cs).bind fun q => (dropLit newTail q.2).map fun r => (q.1, r)) =
        some v → ∃ r2, durAlt hrs w cs = some (v.1, r2) := by
    intro hrs w v hv
    obtain ⟨q, hq, hmap⟩ := Option.bind_eq_some.mp hv
    obtain ⟨r, -, hr⟩ := Option.map_eq_some'.mp hmap
    refine ⟨q.2, ?_⟩
    rw [hq, ← hr]
  cases h1 : ((durAlt true 2 cs).bind fun q => (dropLit newTail q.2).map fun r => (q.1, r)) with
  | some v =>
    rw [h1] at h
    simp only [Option.some_orElse, Option.some.injEq] at h
    subst h
    exact Or.inl ⟨2, grab true 2 (dur, rest) h1⟩
  | none =>
    rw [h1, Option.none_orElse] at h
    cases h2 : ((durAlt true 1 cs).bind fun q => (dropLit newTail q.2).map fun r => (q.1, r)) with
    | some v =>
      rw [h2] at h
      simp only [Option.some_orElse, Option.some.injEq] at h
      subst h
      exact Or.inl ⟨1, grab true 1 (dur, rest) h2⟩
    | none =>
      rw [h2, Option.none_orElse] at h
      cases h3 : ((durAlt false 2 cs).bind fun q => (dropLit newTail q.2).map fun r => (q.1, r)) with
      | some v =>
        rw [h3] at h
        simp only [Option.some_orElse, Option.some.injEq] at h
        subst h
        exact Or.inr ⟨2, grab false 2 (dur, rest) h3⟩
      | none =>
        rw [h3, Option.none_orElse] at h
        exact Or.inr ⟨1, grab false 1 (dur, rest) h⟩

theorem durMatch_cases (cs dur rest : List Char)
    (h : durMatch cs = some (dur, rest)) :
    (∃ w r2, durAlt true w cs = some (dur, r2)) ∨
      (∃ w r2, durAlt false w cs = some (dur, r2)) := by
  unfold durMatch at h
  cases h1 : durAlt true 2 cs with
  | some v =>
    rw [h1] at h
    simp only [Option.some_orElse, Option.some.injEq] at h
    exact Or.inl ⟨2, v.2, by rw [h1, h]⟩
  | none =>
    rw [h1, Option.none_orElse] at h
    cases h2 : durAlt true 1 cs with
    | some v =>
      rw [h2] at h
      simp only [Option.some_orElse, Option.some.injEq] at h
      exact Or.inl ⟨1, v.2, by rw [h2, h]⟩
    | none =>
      rw [h2, Option.none_orElse] at h
      cases h3 : durAlt false 2 cs with
      | some v =>
        rw [h3] at h
        simp only [Option.some_orElse, Option.some.injEq] at h
        exact Or.inr ⟨2, v.2, by rw [h3, h]⟩
      | none =>
        rw [h3, Option.none_orElse] at h
        exact Or.inr ⟨1, rest, h⟩

theorem newMatch_eq (content : String) :
    newMatch content =
      (dropLit ("I solved the ".toList) content.toList).bind (fun r0 =>
        (digits12 r0).bind (fun q1 =>
          (expectChar '/' q1.2).bind (fun r2 =>
            (digits12 r2).bind (fun q2 =>
              (expectChar '/' q2.2).bind (fun r4 =>
                (digitsN 4 r4).bind (fun q3 =>
                  (dropLit (" New York Times Mini Crossword in ".toList) q3.2).bind (fun r6 =>
                    (durThenTail r6).bind (fun q4 =>
                      some (String.mk (q1.1 ++ '/' :: q2.1 ++ '/' :: q3.1),
                        String.mk q4.1))))))))) := rfl

theorem badgeMatch_eq (content : String) :
    badgeMatch content =
      (dropLit ("https://www.nytimes.com/badges/games/mini.html?d=".toList)
          content.toList).bind (fun r0 =>
        (digitsN 4 r0).bind (fun qy =>
          (expectChar '-' qy.2).bind (fun r2 =>
            (digitsN 2 r2).bind (fun qm =>
              (expectChar '-' qm.2).bind (fun r4 =>
                (digitsN 2 r4).bind (fun qd =>
                  (dropLit ("&t=".toList) qd.2).bind (fun r6 =>
                    (digitsPlus r6).bind (fun qt =>
                      (dropLit ("&c=".toList) qt.2).bind (fun r8 =>
                        (classPlus isHexDigit r8).bind (fun qc =>
                          some (String.mk (qy.1 ++ '-' :: qm.1 ++ '-' :: qd.1),
                            String.mk qt.1, String.mk qc.1))))))))))) := rfl

theorem pipsMatch_eq (content : String) :
    pipsMatch content =
      (dropLit ("Pips #".toList) content.toList).bind (fun r0 =>
        (digitsPlus r0).bind (fun qv =>
          (expectChar ' ' qv.2).bind (fun r2 =>
            (classPlus isWordChar r2).bind (fun qw =>
              (expectChar ' ' qw.2).bind (fun r4 =>
                (classPlus isNotNL r4).bind (fun qx =>
                  (expectChar '\n' qx.2).bind (fun r6 =>
                    (durMatch r6).bind (fun qd =>
                      some (String.mk qv.1, String.mk qw.1, String.mk qd.1))))))))) := rfl

theorem newMatch_dur (content : String) (d t : String)
    (h : newMatch content = some (d, t)) :
    ∃ r6 dur r7, durThenTail r6 = some (dur, r7) ∧ t = String.mk dur := by
  rw [newMatch_eq] at h
  obtain ⟨r0, h0, h⟩ := Option.bind_eq_some.mp h
  obtain ⟨q1, hq1, h⟩ := Option.bind_eq_some.mp h
  obtain ⟨r2, hr2, h⟩ := Option.bind_eq_some.mp h
  obtain ⟨q2, hq2, h⟩ := Option.bind_eq_some.mp h
  obtain ⟨r4, hr4, h⟩ := Option.bind_eq_some.mp h
  obtain ⟨q3, hq3, h⟩ := Option.bind_eq_some.mp h
  obtain ⟨r6, hr6, h⟩ := Option.bind_eq_some.mp h
  obtain ⟨q4, hq4, h⟩ := Option.bind_eq_some.mp h
  simp only [Option.some.injEq, Prod.mk.injEq] at h
  exact ⟨r6, q4.1, q4.2, hq4, h.2.symm⟩

theorem pipsMatch_dur (content : String) (v w t : String)
    (h : pipsMatch content = some (v, w, t)) :
    ∃ r6 dur r7, durMatch r6 = some (dur, r7) ∧ t = String.mk dur := by
  rw [pipsMatch_eq] at h
  obtain ⟨r0, h0, h⟩ := Option.bind_eq_some.mp h
  obtain ⟨qv, hqv, h⟩ := Option.bind_eq_some.mp h
  obtain ⟨r2, hr2, h⟩ := Option.bind_eq_some.mp h
  obtain ⟨qw, hqw, h⟩ := Option.bind_eq_some.mp h
  obtain ⟨r4, hr4, h⟩ := Option.bind_eq_some.mp h
  obtain ⟨qx, hqx, h⟩ := Option.bind_eq_some.mp h
  obtain ⟨r6, hr6, h⟩ := Option.bind_eq_some.mp h
  obtain ⟨qd, hqd, h⟩ := Option.bind_eq_some.mp h
  simp only [Option.some.injEq, Prod.mk.injEq] at h
  exact ⟨r6, qd.1, qd.2, hqd, h.2.2.symm⟩

theorem dropLit_some_head (l : Char) (ls cs : List Char) (r : List Char)
    (h : dropLit (l :: ls) cs = some r) : ∃ cs', cs = l :: cs' := by
  match cs with
  | [] => simp [dropLit] at h
  | c :: cs' =>
    simp only [dropLit] at h
    by_cases hc : c = l
    · exact ⟨cs', by rw [hc]⟩
    · rw [if_neg hc] at h; simp at h

/-- A message matched by NEW_PATTERN starts with an I, so BADGE_PATTERN
(anchored, expecting an h) can never also match it. -/
theorem newMatch_badgeMatch_none (content : String) (p : String × String)
    (h : newMatch content = some p) : badgeMatch content = none := by
  rw [newMatch_eq] at h
  obtain ⟨r0, h0, -⟩ := Option.bind_eq_some.mp h
  rw [show ("I solved the ".toList) = 'I' :: (" solved the ".toList) from rfl] at h0
  obtain ⟨cs', hcs⟩ := dropLit_some_head 'I' _ _ _ h0
  rw [badgeMatch_eq, hcs]
  rw [show ("https://www.nytimes.com/badges/games/mini.html?d=".toList) =
    'h' :: ("ttps://www.nytimes.com/badges/games/mini.html?d=".toList) from rfl]
  simp [dropLit]

theorem mini_keyMatch_iff (uid gid : Nat) (date : Date) (s : Minibot.Solve) :
    Minibot.keyMatch uid gid date s = true ↔ s.key = (uid, gid, date) := by
  simp [Minibot.keyMatch, Minibot.Solve.key, Prod.ext_iff]

theorem mini_find_self (store : List Minibot.Solve) (aid gid : Nat) (date : Date)
    (s : Minibot.Solve) (hu : Minibot.uniqueKey store) (hs : s ∈ store)
    (h1 : s.user_id = aid) (h2 : s.guild_id = gid) (h3 : s.date = date) :
    ∃ pre post, store = pre ++ s :: post ∧
      (∀ r ∈ pre, Minibot.keyMatch aid gid date r = false) ∧
      store.find? (Minibot.keyMatch aid gid date) = some s ∧
      Minibot.keyMatch aid gid date s = true := by
  have hskey : s.key = (aid, gid, date) := by
    simp [Minibot.Solve.key, h1, h2, h3]
  have hks : Minibot.keyMatch aid gid date s = true := (mini_keyMatch_iff ..).mpr hskey
  obtain ⟨pre, post, hsplit, hpre, hpost⟩ := nodup_map_split Minibot.Solve.key hu hs
  have hkpre : ∀ r ∈ pre, Minibot.keyMatch aid gid date r = false := by
    intro r hr
    rw [Bool.eq_false_iff]
    intro htrue
    exact hpre r hr (by rw [(mini_keyMatch_iff ..).mp htrue, hskey])
  refine ⟨pre, post, hsplit, hkpre, ?_, hks⟩
  rw [hsplit]
  exact find?_middle _ pre post s hkpre hks

theorem mini_upsert_same (mo : Nat → Member) (store : List Minibot.Solve)
    (aid gid now : Nat) (date : Date) (secs : Nat) (chk : String) (s : Minibot.Solve)
    (hu : Minibot.uniqueKey store) (hs : s ∈ store)
    (h1 : s.user_id = aid) (h2 : s.guild_id = gid) (h3 : s.date = date)
    (heq : s.seconds = secs) :
    (Minibot.on_mini_crossword_solve mo store aid gid now date secs chk).store = store := by
  obtain ⟨pre, post, hsplit, hkpre, hfind, hks⟩ :=
    mini_find_self store aid gid date s hu hs h1 h2 h3
  unfold Minibot.on_mini_crossword_solve
  rw [hfind]
  simp [heq]

theorem mini_upsert_diff (mo : Nat → Member) (store : List Minibot.Solve)
    (aid gid now : Nat) (date : Date) (secs : Nat) (chk : String) (s : Minibot.Solve)
    (hu : Minibot.uniqueKey store) (hs : s ∈ store)
    (h1 : s.user_id = aid) (h2 : s.guild_id = gid) (h3 : s.date = date)
    (hne : s.seconds ≠ secs) :
    ∃ pre post, store = pre ++ s :: post ∧
      (Minibot.on_mini_crossword_solve mo store aid gid now date secs chk).store =
        pre ++ { s with seconds := secs, checksum := chk } :: post := by
  obtain ⟨pre, post, hsplit, hkpre, hfind, hks⟩ :=
    mini_find_self store aid gid date s hu hs h1 h2 h3
  refine ⟨pre, post, hsplit, ?_⟩
  unfold Minibot.on_mini_crossword_solve
  rw [hfind]
  simp only [hne, ne_eq, not_false_eq_true, if_true]
  rw [hsplit]
  exact updateFirst_middle _ _ pre post s hkpre hks

theorem mini_upsert_preserves (mo : Nat → Member) (store : List Minibot.Solve)
    (aid gid now : Nat) (date : Date) (secs : Nat) (chk : String) :
    (Minibot.uniqueKey store →
      Minibot.uniqueKey
        (Minibot.on_mini_crossword_solve mo store aid gid now date secs chk).store)
    ∧ (∀ s ∈ store,
        ∃ q ∈ (Minibot.on_mini_crossword_solve mo store aid gid now date secs chk).store,
          q.key = s.key)
    ∧ store.length ≤
        (Minibot.on_mini_crossword_solve mo store aid gid now date secs chk).store.length := by
  cases hf : store.find? (Minibot.keyMatch aid gid date) with
  | none =>
    have hst : (Minibot.on_mini_crossword_solve mo store aid gid now date secs chk).store =
        store ++ [⟨aid, gid, now, date, secs, chk⟩] := by
      unfold Minibot.on_mini_crossword_solve
      rw [hf]
    rw [hst]
    refine ⟨?_, ?_, by simp⟩
    · intro hu
      unfold Minibot.uniqueKey at hu ⊢
      rw [List.map_append, List.nodup_append]
      refine ⟨hu, by simp, ?_⟩
      intro a ha hb
      simp only [List.map_cons, List.map_nil, List.mem_singleton] at hb
      obtain ⟨x, hx, hxa⟩ := List.mem_map.mp ha
      have hnk := List.find?_eq_none.mp hf x hx
      exact hnk ((mini_keyMatch_iff ..).mpr (by rw [hxa, hb]; rfl))
    · intro s hs
      exact ⟨s, List.mem_append_left _ hs, rfl⟩
  | some solve =>
    by_cases hse : solve.seconds ≠ secs
    · have hst : (Minibot.on_mini_crossword_solve mo store aid gid now date secs chk).store =
          updateFirst (Minibot.keyMatch aid gid date)
            (fun s => { s with seconds := secs, checksum := chk }) store := by
        unfold Minibot.on_mini_crossword_solve
        rw [hf]
        simp [hse]
      have hmap : (updateFirst (Minibot.keyMatch aid gid date)
          (fun s => { s with seconds := secs, checksum := chk }) store).map Minibot.Solve.key =
            store.map Minibot.Solve.key :=
        map_updateFirst (Minibot.keyMatch aid gid date)
          (fun s => { s with seconds := secs, checksum := chk }) Minibot.Solve.key
          (fun x => rfl) store
      rw [hst]
      refine ⟨?_, ?_, by rw [length_updateFirst]⟩
      · intro hu
        unfold Minibot.uniqueKey at hu ⊢
        rw [hmap]
        exact hu
      · intro s hs
        have : s.key ∈ (updateFirst (Minibot.keyMatch aid gid date)
            (fun s => { s with seconds := secs, checksum := chk }) store).map
              Minibot.Solve.key := by
          rw [hmap]
          exact List.mem_map_of_mem _ hs
        obtain ⟨q, hq, hqk⟩ := List.mem_map.mp this
        exact ⟨q, hq, hqk⟩
    · have hst : (Minibot.on_mini_crossword_solve mo store aid gid now date secs chk).store =
          store := by
        unfold Minibot.on_mini_crossword_solve
        rw [hf]
        simp [hse]
      rw [hst]
      exact ⟨fun hu => hu, fun s hs => ⟨s, hs, rfl⟩, Nat.le_refl _⟩

theorem mini_message_store (fp : String → String → String → List Nat) (fb : List Nat)
    (mo : Nat → Member) (store : List Minibot.Solve) (ab : Bool)
    (aid gid now : Nat) (content : String) :
    (Minibot.on_message fp fb mo store ab aid gid now content).2 = store ∨
    ∃ date secs chk,
      (Minibot.on_message fp fb mo store ab aid gid now content).2 =
        (Minibot.on_mini_crossword_solve mo store aid gid now date secs chk).store := by
  unfold Minibot.on_message
  cases ab with
  | true => simp
  | false =>
    simp only [Bool.false_eq_true, if_false]
    cases hbm : badgeMatch content with
    | some p =>
      obtain ⟨d, t, c⟩ := p
      dsimp only
      by_cases hsp : fp c d t = fb
      · simp [hsp]
      · simp only [hsp, if_false]
        cases hds : strptimeYMD d with
        | none => simp
        | some date =>
          dsimp only
          exact Or.inr ⟨date, decVal t.toList, c, rfl⟩
    | none =>
      dsimp only
      cases hnm : newMatch content with
      | some p =>
        obtain ⟨d, t⟩ := p
        dsimp only
        cases hds : strptimeMDY d with
        | none => simp
        | some date =>
          dsimp only
          exact Or.inr ⟨date, pySeconds t, "", rfl⟩
      | none =>
        dsimp only
        left
        by_cases hc : ("%nyt ".toList).isPrefixOf content.toList = true
        · rw [if_pos hc]
        · rw [if_neg hc]

theorem pip_keyMatch_iff (uid gid v : Nat) (diff : String) (s : Pipbot.Solve) :
    Pipbot.keyMatch uid gid v diff s = true ↔ s.key = (uid, gid, diff, v) := by
  simp only [Pipbot.keyMatch, Pipbot.Solve.key, Prod.ext_iff, decide_eq_true_eq]
  tauto

theorem pip_find_self (store : List Pipbot.Solve) (aid gid v : Nat) (diff : String)
    (s : Pipbot.Solve) (hu : Pipbot.uniqueKey store) (hs : s ∈ store)
    (h1 : s.user_id = aid) (h2 : s.guild_id = gid) (h3 : s.version = v)
    (h4 : s.difficulty = diff) :
    ∃ pre post, store = pre ++ s :: post ∧
      (∀ r ∈ pre, Pipbot.keyMatch aid gid v diff r = false) ∧
      store.find? (Pipbot.keyMatch aid gid v diff) = some s ∧
      Pipbot.keyMatch aid gid v diff s = true := by
  have hskey : s.key = (aid, gid, diff, v) := by
    simp [Pipbot.Solve.key, h1, h2, h3, h4]
  have hks : Pipbot.keyMatch aid gid v diff s = true := (pip_keyMatch_iff ..).mpr hskey
  obtain ⟨pre, post, hsplit, hpre, hpost⟩ := nodup_map_split Pipbot.Solve.key hu hs
  have hkpre : ∀ r ∈ pre, Pipbot.keyMatch aid gid v diff r = false := by
    intro r hr
    rw [Bool.eq_false_iff]
    intro htrue
    exact hpre r hr (by rw [(pip_keyMatch_iff ..).mp htrue, hskey])
  refine ⟨pre, post, hsplit, hkpre, ?_, hks⟩
  rw [hsplit]
  exact find?_middle _ pre post s hkpre hks

theorem pip_upsert_same (mo : Nat → Member) (store : List Pipbot.Solve)
    (aid gid now v : Nat) (diff : String) (secs : Nat) (s : Pipbot.Solve)
    (hu : Pipbot.uniqueKey store) (hs : s ∈ store)
    (h1 : s.user_id = aid) (h2 : s.guild_id = gid) (h3 : s.version = v)
    (h4 : s.difficulty = diff) (heq : s.seconds = secs) :
    (Pipbot.on_pip_solve mo store aid gid now v diff secs).store = store := by
  obtain ⟨pre, post, hsplit, hkpre, hfind, hks⟩ :=
    pip_find_self store aid gid v diff s hu hs h1 h2 h3 h4
  unfold Pipbot.on_pip_solve
  rw [hfind]
  simp [heq]

theorem pip_upsert_diff (mo : Nat → Member) (store : List Pipbot.Solve)
    (aid gid now v : Nat) (diff : String) (secs : Nat) (s : Pipbot.Solve)
    (hu : Pipbot.uniqueKey store) (hs : s ∈ store)
    (h1 : s.user_id = aid) (h2 : s.guild_id = gid) (h3 : s.version = v)
    (h4 : s.difficulty = diff) (hne : s.seconds ≠ secs) :
    ∃ pre post, store = pre ++ s :: post ∧
      (Pipbot.on_pip_solve mo store aid gid now v diff secs).store =
        pre ++ { s with seconds := secs } :: post := by
  obtain ⟨pre, post, hsplit, hkpre, hfind, hks⟩ :=
    pip_find_self store aid gid v diff s hu hs h1 h2 h3 h4
  refine ⟨pre, post, hsplit, ?_⟩
  unfold Pipbot.on_pip_solve
  rw [hfind]
  simp only [hne, ne_eq, not_false_eq_true, if_true]
  rw [hsplit]
  exact updateFirst_middle _ _ pre post s hkpre hks

theorem pip_upsert_preserves (mo : Nat → Member) (store : List Pipbot.Solve)
    (aid gid now v : Nat) (diff : String) (secs : Nat) :
    (Pipbot.uniqueKey store →
      Pipbot.uniqueKey (Pipbot.on_pip_solve mo store aid gid now v diff secs).store)
    ∧ (∀ s ∈ store,
        ∃ q ∈ (Pipbot.on_pip_solve mo store aid gid now v diff secs).store, q.key = s.key)
    ∧ store.length ≤ (Pipbot.on_pip_solve mo store aid gid now v diff secs).store.length := by
  cases hf : store.find? (Pipbot.keyMatch aid gid v diff) with
  | none =>
    have hst : (Pipbot.on_pip_solve mo store aid gid now v diff secs).store =
        store ++ [⟨aid, gid, now, diff, v, secs⟩] := by
      unfold Pipbot.on_pip_solve
      rw [hf]
    rw [hst]
    refine ⟨?_, ?_, by simp⟩
    · intro hu
      unfold Pipbot.uniqueKey at hu ⊢
      rw [List.map_append, List.nodup_append]
      refine ⟨hu, by simp, ?_⟩
      intro a ha hb
      simp only [List.map_cons, List.map_nil, List.mem_singleton] at hb
      obtain ⟨x, hx, hxa⟩ := List.mem_map.mp ha
      have hnk := List.find?_eq_none.mp hf x hx
      exact hnk ((pip_keyMatch_iff ..).mpr (by rw [hxa, hb]; rfl))
    · intro s hs
      exact ⟨s, List.mem_append_left _ hs, rfl⟩
  | some solve =>
    by_cases hse : solve.seconds ≠ secs
    · have hst : (Pipbot.on_pip_solve mo store aid gid now v diff secs).store =
          updateFirst (Pipbot.keyMatch aid gid v diff)
            (fun s => { s with seconds := secs }) store := by
        unfold Pipbot.on_pip_solve
        rw [hf]
        simp [hse]
      have hmap : (updateFirst (Pipbot.keyMatch aid gid v diff)
          (fun s => { s with seconds := secs }) store).map Pipbot.Solve.key =
            store.map Pipbot.Solve.key :=
        map_updateFirst (Pipbot.keyMatch aid gid v diff)
          (fun s => { s with seconds := secs }) Pipbot.Solve.key (fun x => rfl) store
      rw [hst]
      refine ⟨?_, ?_, by rw [length_updateFirst]⟩
      · intro hu
        unfold Pipbot.uniqueKey at hu ⊢
        rw [hmap]
        exact hu
      · intro s hs
        have : s.key ∈ (updateFirst (Pipbot.keyMatch aid gid v diff)
            (fun s => { s with seconds := secs }) store).map Pipbot.Solve.key := by
          rw [hmap]
          exact List.mem_map_of_mem _ hs
        obtain ⟨q, hq, hqk⟩ := List.mem_map.mp this
        exact ⟨q, hq, hqk⟩
    · have hst : (Pipbot.on_pip_solve mo store aid gid now v diff secs).store = store := by
        unfold Pipbot.on_pip_solve
        rw [hf]
        simp [hse]
      rw [hst]
      exact ⟨fun hu => hu, fun s hs => ⟨s, hs, rfl⟩, Nat.le_refl _⟩

theorem pip_message_store (mo : Nat → Member) (store : List Pipbot.Solve) (ab : Bool)
    (aid gid now : Nat) (content : String) :
    (Pipbot.on_message mo store ab aid gid now content).2 = store ∨
    ∃ v diff secs,
      (Pipbot.on_message mo store ab aid gid now content).2 =
        (Pipbot.on_pip_solve mo store aid gid now v diff secs).store := by
  unfold Pipbot.on_message
  cases ab with
  | true => simp
  | false =>
    simp only [Bool.false_eq_true, if_false]
    cases hbm : pipsMatch content with
    | some p =>
      obtain ⟨v, diff, t⟩ := p
      dsimp only
      exact Or.inr ⟨decVal v.toList, diff, pySeconds t, rfl⟩
    | none =>
      dsimp only
      left
      by_cases hc : ("%pip ".toList).isPrefixOf content.toList = true
      · rw [if_pos hc]
      · rw [if_neg hc]

/-- C1: upsert is idempotent and corrects in place.  For a stored record `s`
with key (user_id, guild_id, puzzle_key), resubmitting the same seconds
performs no write (the store, hence every stored field including the
timestamp, is unchanged), while submitting different seconds overwrites
`seconds` (and `checksum` in the minibot variant) on that record in place:
the record count is unchanged and no second record appears. -/
theorem claim_C1 :
    (∀ (mo : Nat → Member) (store : List Minibot.Solve) (aid gid now : Nat) (date : Date)
       (secs : Nat) (chk : String) (s : Minibot.Solve),
       Minibot.uniqueKey store → s ∈ store →
       s.user_id = aid → s.guild_id = gid → s.date = date →
       ((s.seconds = secs →
          (Minibot.on_mini_crossword_solve mo store aid gid now date secs chk).store = store) ∧
        (s.seconds ≠ secs →
          ∃ pre post, store = pre ++ s :: post ∧
            (Minibot.on_mini_crossword_solve mo store aid gid now date secs chk).store =
              pre ++ { s with seconds := secs, checksum := chk } :: post ∧
            (Minibot.on_mini_crossword_solve mo store aid gid now date secs chk).store.length =
              store.length)))
    ∧ (∀ (mo : Nat → Member) (store : List Pipbot.Solve) (aid gid now v : Nat) (diff : String)
       (secs : Nat) (s : Pipbot.Solve),
       Pipbot.uniqueKey store → s ∈ store →
       s.user_id = aid → s.guild_id = gid → s.version = v → s.difficulty = diff →
       ((s.seconds = secs →
          (Pipbot.on_pip_solve mo store aid gid now v diff secs).store = store) ∧
        (s.seconds ≠ secs →
          ∃ pre post, store = pre ++ s :: post ∧
            (Pipbot.on_pip_solve mo store aid gid now v diff secs).store =
              pre ++ { s with seconds := secs } :: post ∧
            (Pipbot.on_pip_solve mo store aid gid now v diff secs).store.length =
              store.length))) := by
  constructor
  · intro mo store aid gid now date secs chk s hu hs h1 h2 h3
    refine ⟨fun heq => mini_upsert_same mo store aid gid now date secs chk s hu hs h1 h2 h3 heq,
      fun hne => ?_⟩
    obtain ⟨pre, post, hsplit, hstore⟩ :=
      mini_upsert_diff mo store aid gid now date secs chk s hu hs h1 h2 h3 hne
    exact ⟨pre, post, hsplit, hstore, by rw [hstore, hsplit]; simp⟩
  · intro mo store aid gid now v diff secs s hu hs h1 h2 h3 h4
    refine ⟨fun heq => pip_upsert_same mo store aid gid now v diff secs s hu hs h1 h2 h3 h4 heq,
      fun hne => ?_⟩
    obtain ⟨pre, post, hsplit, hstore⟩ :=
      pip_upsert_diff mo store aid gid now v diff secs s hu hs h1 h2 h3 h4 hne
    exact ⟨pre, post, hsplit, hstore, by rw [hstore, hsplit]; simp⟩

theorem claim_C1_witness :
    (Minibot.on_mini_crossword_solve (fun i => ⟨i, "u"⟩)
        [⟨1, 2, 100, ⟨2024, 4, 20⟩, 52, "abc"⟩] 1 2 200 ⟨2024, 4, 20⟩ 52 "zzz").store =
      [⟨1, 2, 100, ⟨2024, 4, 20⟩, 52, "abc"⟩] :=
  (claim_C1.1 (fun i => ⟨i, "u"⟩) [⟨1, 2, 100, ⟨2024, 4, 20⟩, 52, "abc"⟩] 1 2 200
      ⟨2024, 4, 20⟩ 52 "zzz" ⟨1, 2, 100, ⟨2024, 4, 20⟩, 52, "abc"⟩
      (by simp [Minibot.uniqueKey]) (by simp) rfl rfl rfl).1 rfl

/-- C4: every store reachable from the empty table through `on_message` holds
at most one record per key triple/quadruple (the unique index), the invariant
is preserved by every `on_message` call, and no call deletes a record: every
stored key is still present afterwards and the record count never shrinks.
Both variants. -/
theorem claim_C4 :
    (∀ store, Minibot.Reachable store → Minibot.uniqueKey store)
    ∧ (∀ (fp : String → String → String → List Nat) (fb : List Nat) (mo : Nat → Member)
        (store : List Minibot.Solve) (ab : Bool) (aid gid now : Nat) (content : String),
        (Minibot.uniqueKey store →
          Minibot.uniqueKey (Minibot.on_message fp fb mo store ab aid gid now content).2)
        ∧ (∀ s ∈ store,
            ∃ q ∈ (Minibot.on_message fp fb mo store ab aid gid now content).2, q.key = s.key)
        ∧ store.length ≤ (Minibot.on_message fp fb mo store ab aid gid now content).2.length)
    ∧ (∀ store, Pipbot.Reachable store → Pipbot.uniqueKey store)
    ∧ (∀ (mo : Nat → Member) (store : List Pipbot.Solve) (ab : Bool)
        (aid gid now : Nat) (content : String),
        (Pipbot.uniqueKey store →
          Pipbot.uniqueKey (Pipbot.on_message mo store ab aid gid now content).2)
        ∧ (∀ s ∈ store,
            ∃ q ∈ (Pipbot.on_message mo store ab aid gid now content).2, q.key = s.key)
        ∧ store.length ≤ (Pipbot.on_message mo store ab aid gid now content).2.length) := by
  have mini_step : ∀ (fp : String → String → String → List Nat) (fb : List Nat)
      (mo : Nat → Member) (store : List Minibot.Solve) (ab : Bool) (aid gid now : Nat)
      (content : String),
      (Minibot.uniqueKey store →
        Minibot.uniqueKey (Minibot.on_message fp fb mo store ab aid gid now content).2)
      ∧ (∀ s ∈ store,
          ∃ q ∈ (Minibot.on_message fp fb mo store ab aid gid now content).2, q.key = s.key)
      ∧ store.length ≤ (Minibot.on_message fp fb mo store ab aid gid now content).2.length := by
    intro fp fb mo store ab aid gid now content
    rcases mini_message_store fp fb mo store ab aid gid now content with heq | ⟨date, secs, chk, heq⟩
    · rw [heq]
      exact ⟨fun hu => hu, fun s hs => ⟨s, hs, rfl⟩, Nat.le_refl _⟩
    · rw [heq]
      exact mini_upsert_preserves mo store aid gid now date secs chk
  have pip_step : ∀ (mo : Nat → Member) (store : List Pipbot.Solve) (ab : Bool)
      (aid gid now : Nat) (content : String),
      (Pipbot.uniqueKey store →
        Pipbot.uniqueKey (Pipbot.on_message mo store ab aid gid now content).2)
      ∧ (∀ s ∈ store,
          ∃ q ∈ (Pipbot.on_message mo store ab aid gid now content).2, q.key = s.key)
      ∧ store.length ≤ (Pipbot.on_message mo store ab aid gid now content).2.length := by
    intro mo store ab aid gid now content
    rcases pip_message_store mo store ab aid gid now content with heq | ⟨v, diff, secs, heq⟩
    · rw [heq]
      exact ⟨fun hu => hu, fun s hs => ⟨s, hs, rfl⟩, Nat.le_refl _⟩
    · rw [heq]
      exact pip_upsert_preserves mo store aid gid now v diff secs
  refine ⟨?_, mini_step, ?_, pip_step⟩
  · intro store h
    induction h with
    | init => simp [Minibot.uniqueKey]
    | step fp fb mo ab aid gid now content store hr ih =>
      exact (mini_step fp fb mo store ab aid gid now content).1 ih
  · intro store h
    induction h with
    | init => simp [Pipbot.uniqueKey]
    | step mo ab aid gid now content store hr ih =>
      exact (pip_step mo store ab aid gid now content).1 ih

theorem claim_C4_witness :
    Minibot.uniqueKey (Minibot.on_message (fun _ _ _ => [0]) [] (fun i => ⟨i, "u"⟩) []
      false 1 2 100 "https://www.nytimes.com/badges/games/mini.html?d=2024-04-20&t=78&c=ab").2 :=
  claim_C4.1 _ (Minibot.Reachable.step _ _ _ _ _ _ _ _ _ Minibot.Reachable.init)

/-- C10: in the daily variant, a stored record with a non-empty checksum is
overwritten by a later narrative-form submission for the same
(user, guild, date) with different seconds: the update writes the narrative
path's default empty checksum alongside the new seconds, so the original
credential is lost. -/
theorem claim_C10 :
    ∀ (fp : String → String → String → List Nat) (fb : List Nat) (mo : Nat → Member)
      (store : List Minibot.Solve) (aid gid now : Nat) (content d t : String)
      (s : Minibot.Solve) (date : Date),
      newMatch content = some (d, t) → strptimeMDY d = some date →
      Minibot.uniqueKey store → s ∈ store →
      s.user_id = aid → s.guild_id = gid → s.date = date →
      s.checksum ≠ "" → s.seconds ≠ pySeconds t →
      ∃ pre post, store = pre ++ s :: post ∧
        (Minibot.on_message fp fb mo store false aid gid now content).2 =
          pre ++ (⟨aid, gid, s.timestamp, date, pySeconds t, ""⟩ : Minibot.Solve) :: post := by
  intro fp fb mo store aid gid now content d t s date hnew hdate hu hs h1 h2 h3 hchk hne
  have hbm := newMatch_badgeMatch_none content (d, t) hnew
  have hmsg : (Minibot.on_message fp fb mo store false aid gid now content).2 =
      (Minibot.on_mini_crossword_solve mo store aid gid now date (pySeconds t) "").store := by
    unfold Minibot.on_message
    rw [hbm]
    dsimp only
    rw [hnew]
    dsimp only
    rw [hdate]
    simp
  obtain ⟨pre, post, hsplit, hstore⟩ :=
    mini_upsert_diff mo store aid gid now date (pySeconds t) "" s hu hs h1 h2 h3 hne
  refine ⟨pre, post, hsplit, ?_⟩
  rw [hmsg, hstore]
  have hrec : ({ s with seconds := pySeconds t, checksum := "" } : Minibot.Solve) =
      ⟨aid, gid, s.timestamp, date, pySeconds t, ""⟩ := by
    rw [← h1, ← h2, ← h3]
  rw [hrec]

theorem claim_C10_witness :
    ∃ pre post,
      ([⟨1, 2, 100, ⟨2024, 4, 21⟩, 52, "abc"⟩] : List Minibot.Solve) =
        pre ++ (⟨1, 2, 100, ⟨2024, 4, 21⟩, 52, "abc"⟩ : Minibot.Solve) :: post ∧
      (Minibot.on_message (fun _ _ _ => [0]) [] (fun i => ⟨i, "u"⟩)
          [⟨1, 2, 100, ⟨2024, 4, 21⟩, 52, "abc"⟩] false 1 2 200
          "I solved the 4/21/2024 New York Times Mini Crossword in 0:40! https://www.nytimes.com/crosswords/game/mini").2 =
        pre ++ (⟨1, 2, 100, ⟨2024, 4, 21⟩, 40, ""⟩ : Minibot.Solve) :: post :=
  claim_C10 (fun _ _ _ => [0]) [] (fun i => ⟨i, "u"⟩)
    [⟨1, 2, 100, ⟨2024, 4, 21⟩, 52, "abc"⟩] 1 2 200
    "I solved the 4/21/2024 New York Times Mini Crossword in 0:40! https://www.nytimes.com/crosswords/game/mini"
    "4/21/2024" "0:40" ⟨1, 2, 100, ⟨2024, 4, 21⟩, 52, "abc"⟩ ⟨2024, 4, 21⟩
    rfl rfl (by simp [Minibot.uniqueKey]) (by simp) rfl rfl rfl (by decide) (by decide)

theorem durCases_spec (cs dur : List Char)
    (h : (∃ w r2, durAlt true w cs = some (dur, r2)) ∨
      (∃ w r2, durAlt false w cs = some (dur, r2))) :
    (∃ m s, splitColon dur = [m, s] ∧
      pySeconds (String.mk dur) = 60 * decVal m + decVal s) ∨
    (∃ hh m s, splitColon dur = [hh, m, s] ∧
      pySeconds (String.mk dur) = 3600 * decVal hh + 60 * decVal m + decVal s) := by
  rcases h with ⟨w, r2, hda⟩ | ⟨w, r2, hda⟩
  · obtain ⟨hh, m, s, hdur, hhne, hml, hsl, hhd, hmd, hsd⟩ :=
      durAlt_true_spec w cs dur r2 hda
    have hhc := digits_no_colon hhd
    have hmc := digits_no_colon hmd
    have hsc := digits_no_colon hsd
    refine Or.inr ⟨hh, m, s, ?_, ?_⟩
    · rw [hdur, splitColon_append hh (m ++ ':' :: s) hhc, splitColon_append m s hmc,
        splitColon_nocolon s hsc]
    · rw [hdur]
      exact pySeconds_three hh m s hhc hmc hsc
  · obtain ⟨m, s, hdur, hml, hsl, hmd, hsd⟩ := durAlt_false_spec w cs dur r2 hda
    have hmc := digits_no_colon hmd
    have hsc := digits_no_colon hsd
    refine Or.inl ⟨m, s, ?_, ?_⟩
    · rw [hdur, splitColon_append m s hmc, splitColon_nocolon s hsc]
    · rw [hdur]
      exact pySeconds_two m s hmc hsc

/-- C3: every narrative-form duration the daily or versioned pattern matches
has exactly 2 or 3 colon-separated components, and the extracted seconds is
the base-60 place value of those components (least significant first):
`60*m + s` or `3600*h + 60*m + s`.  A bare seconds count such as "52" does
not match (mm:ss is the minimum); "0:52" extracts 52 and "1:02:03" extracts
3723. -/
theorem claim_C3 :
    (∀ (content d t : String), newMatch content = some (d, t) →
       (∃ m s, splitColon t.toList = [m, s] ∧
         pySeconds t = 60 * decVal m + decVal s) ∨
       (∃ hh m s, splitColon t.toList = [hh, m, s] ∧
         pySeconds t = 3600 * decVal hh + 60 * decVal m + decVal s))
    ∧ (∀ (content v w t : String), pipsMatch content = some (v, w, t) →
       (∃ m s, splitColon t.toList = [m, s] ∧
         pySeconds t = 60 * decVal m + decVal s) ∨
       (∃ hh m s, splitColon t.toList = [hh, m, s] ∧
         pySeconds t = 3600 * decVal hh + 60 * decVal m + decVal s))
    ∧ newMatch
        "I solved the 4/21/2024 New York Times Mini Crossword in 52! https://www.nytimes.com/crosswords/game/mini" =
        none
    ∧ newMatch
        "I solved the 4/21/2024 New York Times Mini Crossword in 0:52! https://www.nytimes.com/crosswords/game/mini" =
        some ("4/21/2024", "0:52")
    ∧ pySeconds "0:52" = 52
    ∧ newMatch
        "I solved the 4/21/2024 New York Times Mini Crossword in 1:02:03! https://www.nytimes.com/crosswords/game/mini" =
        some ("4/21/2024", "1:02:03")
    ∧ pySeconds "1:02:03" = 3723 := by
  refine ⟨?_, ?_, by rfl, by rfl, by rfl, by rfl, by rfl⟩
  · intro content d t h
    obtain ⟨r6, dur, r7, hdt, ht⟩ := newMatch_dur content d t h
    subst ht
    exact durCases_spec r6 dur (durThenTail_cases r6 dur r7 hdt)
  · intro content v w t h
    obtain ⟨r6, dur, r7, hdm, ht⟩ := pipsMatch_dur content v w t h
    subst ht
    exact durCases_spec r6 dur (durMatch_cases r6 dur r7 hdm)

theorem claim_C3_witness :
    (∃ m s, splitColon ("0:52" : String).toList = [m, s] ∧
      pySeconds "0:52" = 60 * decVal m + decVal s) ∨
    (∃ hh m s, splitColon ("0:52" : String).toList = [hh, m, s] ∧
      pySeconds "0:52" = 3600 * decVal hh + 60 * decVal m + decVal s) :=
  claim_C3.1
    "I solved the 4/21/2024 New York Times Mini Crossword in 0:52! https://www.nytimes.com/crosswords/game/mini"
    "4/21/2024" "0:52" (by rfl)

/-- C5: for a badge-matched message, the submission is rejected as spoofed
(NO ENTRY SIGN reaction, reflected by the `spoof_rejected` outcome) exactly
when the parameterized image fetch returns the same bytes as the baseline
fetch; in that case the store is unchanged — so no record is created and
every leaderboard reads the same — for all (user, guild, date group, seconds
group, checksum group). -/
theorem claim_C5 :
    ∀ (fp : String → String → String → List Nat) (fb : List Nat) (mo : Nat → Member)
      (store : List Minibot.Solve) (aid gid now : Nat) (content d t c : String),
      badgeMatch content = some (d, t, c) →
      (((Minibot.on_message fp fb mo store false aid gid now content).1 =
          Minibot.Outcome.spoof_rejected) ↔ fp c d t = fb)
      ∧ (fp c d t = fb →
          (Minibot.on_message fp fb mo store false aid gid now content).2 = store
          ∧ ∀ (mo2 : Nat → Member) (gid2 : Nat) (date2 : Date),
              Minibot.get_leaderboard
                  (Minibot.on_message fp fb mo store false aid gid now content).2
                  mo2 gid2 date2 =
                Minibot.get_leaderboard store mo2 gid2 date2) := by
  intro fp fb mo store aid gid now content d t c hbm
  unfold Minibot.on_message
  rw [hbm]
  dsimp only
  by_cases hsp : fp c d t = fb
  · simp [hsp]
  · rw [if_neg hsp]
    cases hds : strptimeYMD d with
    | none =>
      dsimp only
      exact ⟨⟨fun h => by simp at h, fun h => absurd h hsp⟩, fun h => absurd h hsp⟩
    | some date =>
      dsimp only
      exact ⟨⟨fun h => by simp at h, fun h => absurd h hsp⟩, fun h => absurd h hsp⟩

theorem claim_C5_witness :
    ((Minibot.on_message (fun _ _ _ => []) [] (fun i => ⟨i, "u"⟩) [] false 1 2 100
        "https://www.nytimes.com/badges/games/mini.html?d=2024-04-20&t=78&c=ab").1 =
      Minibot.Outcome.spoof_rejected)
    ∧ (Minibot.on_message (fun _ _ _ => []) [] (fun i => ⟨i, "u"⟩) [] false 1 2 100
        "https://www.nytimes.com/badges/games/mini.html?d=2024-04-20&t=78&c=ab").2 = [] :=
  have h := claim_C5 (fun _ _ _ => []) [] (fun i => ⟨i, "u"⟩) [] 1 2 100
    "https://www.nytimes.com/badges/games/mini.html?d=2024-04-20&t=78&c=ab"
    "2024-04-20" "78" "ab" (by rfl)
  ⟨h.1.mpr rfl, (h.2 rfl).1⟩

theorem highlight_iff {α : Type} (p : α → Bool) (P : α → Prop) (l : List α)
    (hp : ∀ e, p e = true ↔ P e) :
    (l.foldl (fun color e => if p e then some Color.gold else color) none =
        some Color.gold ↔ ∃ e ∈ l, P e)
    ∧ (l.foldl (fun color e => if p e then some Color.gold else color) none =
        none ↔ ¬ ∃ e ∈ l, P e) := by
  rw [foldl_highlight p l none]
  by_cases h : ∃ e ∈ l, p e = true
  · have hPe : ∃ e ∈ l, P e := by
      obtain ⟨e, he, hpe⟩ := h
      exact ⟨e, he, (hp e).mp hpe⟩
    simp [h, hPe]
  · have hPe : ¬ ∃ e ∈ l, P e := by
      intro hex
      obtain ⟨e, he, hpe⟩ := hex
      exact h ⟨e, he, (hp e).mpr hpe⟩
    simp [h, hPe]

/-- C9: the embed highlight colour computed right after a submission is the
gold first-place colour exactly when some rank-1 entry of the freshly built
leaderboard belongs to the submitting author; otherwise it is `none`.  Both
variants. -/
theorem claim_C9 :
    (∀ (mo : Nat → Member) (store : List Minibot.Solve) (aid gid now : Nat) (date : Date)
       (secs : Nat) (chk : String),
       ((Minibot.on_mini_crossword_solve mo store aid gid now date secs chk).color =
           some Color.gold ↔
         ∃ e ∈ (Minibot.on_mini_crossword_solve mo store aid gid now date
             secs chk).leaderboard.entries,
           e.position = 1 ∧ e.member.id = aid)
       ∧ ((Minibot.on_mini_crossword_solve mo store aid gid now date secs chk).color = none ↔
         ¬ ∃ e ∈ (Minibot.on_mini_crossword_solve mo store aid gid now date
             secs chk).leaderboard.entries,
           e.position = 1 ∧ e.member.id = aid))
    ∧ (∀ (mo : Nat → Member) (store : List Pipbot.Solve) (aid gid now v : Nat) (diff : String)
       (secs : Nat),
       ((Pipbot.on_pip_solve mo store aid gid now v diff secs).color = some Color.gold ↔
         ∃ e ∈ (Pipbot.on_pip_solve mo store aid gid now v diff secs).leaderboard.entries,
           e.position = 1 ∧ e.member.id = aid)
       ∧ ((Pipbot.on_pip_solve mo store aid gid now v diff secs).color = none ↔
         ¬ ∃ e ∈ (Pipbot.on_pip_solve mo store aid gid now v diff secs).leaderboard.entries,
           e.position = 1 ∧ e.member.id = aid)) := by
  constructor
  · intro mo store aid gid now date secs chk
    exact highlight_iff
      (fun e : Minibot.LeaderboardEntry => e.position = 1 && e.member.id = aid)
      (fun e => e.position = 1 ∧ e.member.id = aid)
      (Minibot.on_mini_crossword_solve mo store aid gid now date secs chk).leaderboard.entries
      (by intro e; simp)
  · intro mo store aid gid now v diff secs
    exact highlight_iff
      (fun e : Pipbot.LeaderboardEntry => e.position = 1 && e.member.id = aid)
      (fun e => e.position = 1 ∧ e.member.id = aid)
      (Pipbot.on_pip_solve mo store aid gid now v diff secs).leaderboard.entries
      (by intro e; simp)

theorem claim_C9_witness :
    (Minibot.on_mini_crossword_solve (fun i => ⟨i, "u"⟩) [] 1 2 100
      ⟨2024, 4, 20⟩ 52 "ab").color = some Color.gold :=
  (claim_C9.1 (fun i => ⟨i, "u"⟩) [] 1 2 100 ⟨2024, 4, 20⟩ 52 "ab").1.mpr
    ⟨⟨1, ⟨1, "u"⟩, 52⟩, by decide, rfl, rfl⟩

/-- C6 counterexample: two distinct pipbot scopes — same version, different
difficulty — render the identical empty-leaderboard message, so the message
does not name the scope (the difficulty half of the scope key is omitted). -/
theorem claim_C6_counterexample :
    Pipbot.Leaderboard.render ⟨38, "Hard", []⟩ = Pipbot.Leaderboard.render ⟨38, "Easy", []⟩
    ∧ Pipbot.Leaderboard.render ⟨38, "Hard", []⟩ = "No leaderboard for 38" := by
  constructor <;> rfl

/-- C6 (amended): rendering an empty leaderboard returns the fixed
"No leaderboard for X" message and never raises in both variants, where X is
the formatted scope date in the daily variant but only the version number
(difficulty omitted) in the versioned variant. -/
theorem claim_C6 :
    (∀ date : Date, Minibot.Leaderboard.render ⟨date, []⟩ =
      "No leaderboard for " ++ Minibot.format_date date)
    ∧ (∀ (v : Nat) (diff : String), Pipbot.Leaderboard.render ⟨v, diff, []⟩ =
      "No leaderboard for " ++ toString v) := by
  constructor
  · intro date
    rfl
  · intro v diff
    rfl

theorem padZero_two_bound :
    ∀ m, m < 60 → padZero 2 m = (if m < 10 then "0" ++ toString m else toString m) := by
  decide

/-- C7: a non-empty leaderboard renders as exactly one line per entry of the
form "rank. name (m:ss)", the crown marker appended only at rank 1, and the
time is seconds div 60, a colon, and seconds mod 60 zero-padded to two
digits — minutes unpadded and free to exceed 59.  Both variants. -/
theorem claim_C7 :
    (∀ lb : Minibot.Leaderboard, lb.entries ≠ [] →
       Minibot.Leaderboard.render lb =
         String.intercalate "\n" (lb.entries.map (fun e =>
           toString e.position ++ ". " ++ e.member.display_name ++ " (" ++
             Minibot.format_time e.seconds ++ ")" ++
             (if e.position = 1 then " :crown:" else ""))))
    ∧ (∀ lb : Minibot.Leaderboard,
        (lb.entries.map (fun e =>
          toString e.position ++ ". " ++ e.member.display_name ++ " (" ++
            Minibot.format_time e.seconds ++ ")" ++
            (if e.position = 1 then " :crown:" else ""))).length = lb.entries.length)
    ∧ (∀ n : Nat, Minibot.format_time n =
        toString (n / 60) ++ ":" ++
          (if n % 60 < 10 then "0" ++ toString (n % 60) else toString (n % 60)))
    ∧ Minibot.format_time 3600 = "60:00"
    ∧ Minibot.format_time 52 = "0:52"
    ∧ Minibot.format_time 60 = "1:00"
    ∧ Minibot.format_time 7262 = "121:02"
    ∧ (∀ lb : Pipbot.Leaderboard, lb.entries ≠ [] →
       Pipbot.Leaderboard.render lb =
         String.intercalate "\n" (lb.entries.map (fun e =>
           toString e.position ++ ". " ++ e.member.display_name ++ " (" ++
             Pipbot.format_time e.seconds ++ ")" ++
             (if e.position = 1 then " :crown:" else ""))))
    ∧ (∀ n : Nat, Pipbot.format_time n =
        toString (n / 60) ++ ":" ++
          (if n % 60 < 10 then "0" ++ toString (n % 60) else toString (n % 60))) := by
  refine ⟨?_, ?_, ?_, by rfl, by rfl, by rfl, by rfl, ?_, ?_⟩
  · intro lb h
    unfold Minibot.Leaderboard.render
    rw [if_neg h]
  · intro lb
    rw [List.length_map]
  · intro n
    show toString (n / 60) ++ ":" ++ padZero 2 (n % 60) = _
    rw [padZero_two_bound (n % 60) (Nat.mod_lt n (by decide))]
  · intro lb h
    unfold Pipbot.Leaderboard.render
    rw [if_neg h]
  · intro n
    show toString (n / 60) ++ ":" ++ padZero 2 (n % 60) = _
    rw [padZero_two_bound (n % 60) (Nat.mod_lt n (by decide))]

theorem claim_C7_witness :
    Minibot.Leaderboard.render ⟨⟨2024, 4, 20⟩, [⟨1, ⟨7, "al"⟩, 52⟩]⟩ =
      String.intercalate "\n"
        (([⟨1, ⟨7, "al"⟩, 52⟩] : List Minibot.LeaderboardEntry).map (fun e =>
          toString e.position ++ ". " ++ e.member.display_name ++ " (" ++
            Minibot.format_time e.seconds ++ ")" ++
            (if e.position = 1 then " :crown:" else ""))) :=
  claim_C7.1 ⟨⟨2024, 4, 20⟩, [⟨1, ⟨7, "al"⟩, 52⟩]⟩ (by decide)

/-- C8: messages from bot authors are ignored before any pattern matching;
the badge pattern is tried first and alone decides the outcome when it
matches; the narrative pattern is consulted only when the badge pattern
fails; with no anchored match no solve is recorded; and matching is anchored
at the start of the body — a body containing a recognized pattern at a
nonzero offset yields no match.  Both variants. -/
theorem claim_C8 :
    (∀ (fp : String → String → String → List Nat) (fb : List Nat) (mo : Nat → Member)
       (store : List Minibot.Solve) (aid gid now : Nat) (content : String),
       Minibot.on_message fp fb mo store true aid gid now content =
         (Minibot.Outcome.ignored_bot, store))
    ∧ (∀ (mo : Nat → Member) (store : List Pipbot.Solve) (aid gid now : Nat)
       (content : String),
       Pipbot.on_message mo store true aid gid now content =
         (Pipbot.Outcome.ignored_bot, store))
    ∧ (∀ (fp : String → String → String → List Nat) (fb : List Nat) (mo : Nat → Member)
       (store : List Minibot.Solve) (aid gid now : Nat) (content d t c : String),
       badgeMatch content = some (d, t, c) →
       Minibot.on_message fp fb mo store false aid gid now content =
         (if fp c d t = fb then (Minibot.Outcome.spoof_rejected, store)
          else
            match strptimeYMD d with
            | none => (Minibot.Outcome.date_error, store)
            | some date =>
              (Minibot.Outcome.solved
                (Minibot.on_mini_crossword_solve mo store aid gid now date
                  (decVal t.toList) c),
               (Minibot.on_mini_crossword_solve mo store aid gid now date
                 (decVal t.toList) c).store)))
    ∧ (∀ (fp : String → String → String → List Nat) (fb : List Nat) (mo : Nat → Member)
       (store : List Minibot.Solve) (aid gid now : Nat) (content d t : String),
       badgeMatch content = none → newMatch content = some (d, t) →
       Minibot.on_message fp fb mo store false aid gid now content =
         (match strptimeMDY d with
          | none => (Minibot.Outcome.date_error, store)
          | some date =>
            (Minibot.Outcome.solved
              (Minibot.on_mini_crossword_solve mo store aid gid now date (pySeconds t) ""),
             (Minibot.on_mini_crossword_solve mo store aid gid now date
               (pySeconds t) "").store)))
    ∧ (∀ (fp : String → String → String → List Nat) (fb : List Nat) (mo : Nat → Member)
       (store : List Minibot.Solve) (aid gid now : Nat) (content : String),
       badgeMatch content = none → newMatch content = none →
       Minibot.on_message fp fb mo store false aid gid now content =
         (if ("%nyt ".toList).isPrefixOf content.toList then (Minibot.Outcome.command, store)
          else (Minibot.Outcome.no_match, store)))
    ∧ badgeMatch
        " https://www.nytimes.com/badges/games/mini.html?d=2024-04-20&t=78&c=ab" = none
    ∧ badgeMatch
        "https://www.nytimes.com/badges/games/mini.html?d=2024-04-20&t=78&c=ab" =
        some ("2024-04-20", "78", "ab")
    ∧ (∀ (fp : String → String → String → List Nat) (fb : List Nat) (mo : Nat → Member)
       (store : List Minibot.Solve) (aid gid now : Nat),
       Minibot.on_message fp fb mo store false aid gid now
         " https://www.nytimes.com/badges/games/mini.html?d=2024-04-20&t=78&c=ab" =
         (Minibot.Outcome.no_match, store))
    ∧ newMatch
        "Hi! I solved the 4/21/2024 New York Times Mini Crossword in 0:52! https://www.nytimes.com/crosswords/game/mini" =
        none
    ∧ pipsMatch " Pips #38 Hard R\n3:46" = none
    ∧ pipsMatch "Pips #38 Hard R\n3:46" = some ("38", "Hard", "3:46")
    ∧ (∀ (mo : Nat → Member) (store : List Pipbot.Solve) (aid gid now : Nat),
       Pipbot.on_message mo store false aid gid now " Pips #38 Hard R\n3:46" =
         (Pipbot.Outcome.no_match, store)) := by
  have hmini_nomatch : ∀ (fp : String → String → String → List Nat) (fb : List Nat)
      (mo : Nat → Member) (store : List Minibot.Solve) (aid gid now : Nat)
      (content : String),
      badgeMatch content = none → newMatch content = none →
      Minibot.on_message fp fb mo store false aid gid now content =
        (if ("%nyt ".toList).isPrefixOf content.toList then (Minibot.Outcome.command, store)
         else (Minibot.Outcome.no_match, store)) := by
    intro fp fb mo store aid gid now content hbm hnm
    unfold Minibot.on_message
    rw [hbm]
    dsimp only
    rw [hnm]
    simp
  have hpip_nomatch : ∀ (mo : Nat → Member) (store : List Pipbot.Solve)
      (aid gid now : Nat) (content : String),
      pipsMatch content = none →
      Pipbot.on_message mo store false aid gid now content =
        (if ("%pip ".toList).isPrefixOf content.toList then (Pipbot.Outcome.command, store)
         else (Pipbot.Outcome.no_match, store)) := by
    intro mo store aid gid now content hpm
    unfold Pipbot.on_message
    rw [hpm]
    simp
  refine ⟨?_, ?_, ?_, ?_, hmini_nomatch, by rfl, by rfl, ?_, by rfl, by rfl, by rfl, ?_⟩
  · intro fp fb mo store aid gid now content
    rfl
  · intro mo store aid gid now content
    rfl
  · intro fp fb mo store aid gid now content d t c hbm
    unfold Minibot.on_message
    rw [hbm]
    simp
  · intro fp fb mo store aid gid now content d t hbm hnm
    unfold Minibot.on_message
    rw [hbm]
    dsimp only
    rw [hnm]
    simp
  · intro fp fb mo store aid gid now
    rw [hmini_nomatch fp fb mo store aid gid now _ (by rfl) (by rfl)]
    rw [if_neg (by decide)]
  · intro mo store aid gid now
    rw [hpip_nomatch mo store aid gid now _ (by rfl)]
    rw [if_neg (by decide)]

theorem claim_C8_witness :
    Minibot.on_message (fun _ _ _ => [0]) [] (fun i => ⟨i, "u"⟩)
      [] true 1 2 100
      "https://www.nytimes.com/badges/games/mini.html?d=2024-04-20&t=78&c=ab" =
      (Minibot.Outcome.ignored_bot, []) :=
  claim_C8.1 (fun _ _ _ => [0]) [] (fun i => ⟨i, "u"⟩) [] 1 2 100
    "https://www.nytimes.com/badges/games/mini.html?d=2024-04-20&t=78&c=ab"

instance : IsTotal Minibot.Solve Minibot.solveLE :=
  ⟨fun a b => by unfold Minibot.solveLE; omega⟩

instance : IsTrans Minibot.Solve Minibot.solveLE :=
  ⟨fun a b c hab hbc => by unfold Minibot.solveLE at hab hbc ⊢; omega⟩

instance : IsTotal Pipbot.Solve Pipbot.solveLE :=
  ⟨fun a b => by unfold Pipbot.solveLE; omega⟩

instance : IsTrans Pipbot.Solve Pipbot.solveLE :=
  ⟨fun a b c hab hbc => by unfold Pipbot.solveLE at hab hbc ⊢; omega⟩

theorem rankLoop_first_pos {α : Type} (sec : α → Nat) (l : List α) (pos : Nat)
    (h : 0 < (rankLoop sec pos none l).length) :
    ((rankLoop sec pos none l).get ⟨0, h⟩).1 = pos := by
  rw [rankLoop_first]

theorem mini_entries_head (store : List Minibot.Solve) (mo : Nat → Member) (gid : Nat)
    (date : Date) (h : 0 < (Minibot.get_leaderboard store mo gid date).entries.length) :
    ((Minibot.get_leaderboard store mo gid date).entries.get ⟨0, h⟩).position = 1 := by
  simp only [Minibot.get_leaderboard, List.get_eq_getElem, List.getElem_map]
  exact rankLoop_first_pos Minibot.Solve.seconds (Minibot.querySolves store gid date) 1
    (by simpa [Minibot.get_leaderboard, rankLoop_length] using h)

theorem mini_entries_adjacent (store : List Minibot.Solve) (mo : Nat → Member) (gid : Nat)
    (date : Date) (i : Nat)
    (h1 : i < (Minibot.get_leaderboard store mo gid date).entries.length)
    (h2 : i + 1 < (Minibot.get_leaderboard store mo gid date).entries.length) :
    ((Minibot.get_leaderboard store mo gid date).entries.get ⟨i + 1, h2⟩).position =
      (if ((Minibot.get_leaderboard store mo gid date).entries.get ⟨i, h1⟩).seconds <
          ((Minibot.get_leaderboard store mo gid date).entries.get ⟨i + 1, h2⟩).seconds
       then ((Minibot.get_leaderboard store mo gid date).entries.get ⟨i, h1⟩).position + 1
       else ((Minibot.get_leaderboard store mo gid date).entries.get ⟨i, h1⟩).position) := by
  have h1' : i < (rankLoop Minibot.Solve.seconds 1 none
      (Minibot.querySolves store gid date)).length := by
    simpa [Minibot.get_leaderboard, rankLoop_length] using h1
  have h2' : i + 1 < (rankLoop Minibot.Solve.seconds 1 none
      (Minibot.querySolves store gid date)).length := by
    simpa [Minibot.get_leaderboard, rankLoop_length] using h2
  simp only [Minibot.get_leaderboard, List.get_eq_getElem, List.getElem_map]
  exact rankLoop_adjacent Minibot.Solve.seconds (Minibot.querySolves store gid date) 1 none i
    h2' h1'

theorem pip_entries_head (store : List Pipbot.Solve) (mo : Nat → Member) (gid v : Nat)
    (diff : String)
    (h : 0 < (Pipbot.get_leaderboard store mo gid v diff).entries.length) :
    ((Pipbot.get_leaderboard store mo gid v diff).entries.get ⟨0, h⟩).position = 1 := by
  simp only [Pipbot.get_leaderboard, List.get_eq_getElem, List.getElem_map]
  exact rankLoop_first_pos Pipbot.Solve.seconds (Pipbot.querySolves store gid v diff) 1
    (by simpa [Pipbot.get_leaderboard, rankLoop_length] using h)

theorem pip_entries_adjacent (store : List Pipbot.Solve) (mo : Nat → Member) (gid v : Nat)
    (diff : String) (i : Nat)
    (h1 : i < (Pipbot.get_leaderboard store mo gid v diff).entries.length)
    (h2 : i + 1 < (Pipbot.get_leaderboard store mo gid v diff).entries.length) :
    ((Pipbot.get_leaderboard store mo gid v diff).entries.get ⟨i + 1, h2⟩).position =
      (if ((Pipbot.get_leaderboard store mo gid v diff).entries.get ⟨i, h1⟩).seconds <
          ((Pipbot.get_leaderboard store mo gid v diff).entries.get ⟨i + 1, h2⟩).seconds
       then ((Pipbot.get_leaderboard store mo gid v diff).entries.get ⟨i, h1⟩).position + 1
       else ((Pipbot.get_leaderboard store mo gid v diff).entries.get ⟨i, h1⟩).position) := by
  have h1' : i < (rankLoop Pipbot.Solve.seconds 1 none
      (Pipbot.querySolves store gid v diff)).length := by
    simpa [Pipbot.get_leaderboard, rankLoop_length] using h1
  have h2' : i + 1 < (rankLoop Pipbot.Solve.seconds 1 none
      (Pipbot.querySolves store gid v diff)).length := by
    simpa [Pipbot.get_leaderboard, rankLoop_length] using h2
  simp only [Pipbot.get_leaderboard, List.get_eq_getElem, List.getElem_map]
  exact rankLoop_adjacent Pipbot.Solve.seconds (Pipbot.querySolves store gid v diff) 1 none i
    h2' h1'

/-- C2: the leaderboard query is a permutation of all solves for the scope,
sorted ascending by seconds and then by recorded timestamp; the builder
assigns dense 1-based ranks: the first entry gets position 1, a strictly
slower next entry gets exactly one more than its predecessor, and an
equal-seconds next entry shares its predecessor's position.  Seconds
[30, 30, 45] therefore rank [1, 1, 2], never [1, 1, 3].  Both variants. -/
theorem claim_C2 :
    (∀ (store : List Minibot.Solve) (mo : Nat → Member) (gid : Nat) (date : Date),
      (Minibot.querySolves store gid date).Pairwise Minibot.solveLE
      ∧ (Minibot.querySolves store gid date).Perm
          (store.filter (fun s => decide (s.guild_id = gid ∧ s.date = date)))
      ∧ (Minibot.get_leaderboard store mo gid date).entries.length =
          (Minibot.querySolves store gid date).length
      ∧ (∀ h : 0 < (Minibot.get_leaderboard store mo gid date).entries.length,
          ((Minibot.get_leaderboard store mo gid date).entries.get ⟨0, h⟩).position = 1)
      ∧ (∀ (i : Nat) (h1 : i < (Minibot.get_leaderboard store mo gid date).entries.length)
          (h2 : i + 1 < (Minibot.get_leaderboard store mo gid date).entries.length),
          ((Minibot.get_leaderboard store mo gid date).entries.get ⟨i + 1, h2⟩).position =
            (if ((Minibot.get_leaderboard store mo gid date).entries.get ⟨i, h1⟩).seconds <
                ((Minibot.get_leaderboard store mo gid date).entries.get ⟨i + 1, h2⟩).seconds
             then
               ((Minibot.get_leaderboard store mo gid date).entries.get ⟨i, h1⟩).position + 1
             else
               ((Minibot.get_leaderboard store mo gid date).entries.get ⟨i, h1⟩).position)))
    ∧ (∀ (store : List Pipbot.Solve) (mo : Nat → Member) (gid v : Nat) (diff : String),
      (Pipbot.querySolves store gid v diff).Pairwise Pipbot.solveLE
      ∧ (Pipbot.querySolves store gid v diff).Perm
          (store.filter (fun s =>
            decide (s.guild_id = gid ∧ s.difficulty = diff ∧ s.version = v)))
      ∧ (Pipbot.get_leaderboard store mo gid v diff).entries.length =
          (Pipbot.querySolves store gid v diff).length
      ∧ (∀ h : 0 < (Pipbot.get_leaderboard store mo gid v diff).entries.length,
          ((Pipbot.get_leaderboard store mo gid v diff).entries.get ⟨0, h⟩).position = 1)
      ∧ (∀ (i : Nat) (h1 : i < (Pipbot.get_leaderboard store mo gid v diff).entries.length)
          (h2 : i + 1 < (Pipbot.get_leaderboard store mo gid v diff).entries.length),
          ((Pipbot.get_leaderboard store mo gid v diff).entries.get ⟨i + 1, h2⟩).position =
            (if ((Pipbot.get_leaderboard store mo gid v diff).entries.get ⟨i, h1⟩).seconds <
                ((Pipbot.get_leaderboard store mo gid v diff).entries.get ⟨i + 1, h2⟩).seconds
             then
               ((Pipbot.get_leaderboard store mo gid v diff).entries.get ⟨i, h1⟩).position + 1
             else
               ((Pipbot.get_leaderboard store mo gid v diff).entries.get ⟨i, h1⟩).position)))
    ∧ (Minibot.get_leaderboard
        [⟨1, 9, 100, ⟨2024, 4, 20⟩, 45, "aa"⟩, ⟨2, 9, 50, ⟨2024, 4, 20⟩, 30, "bb"⟩,
         ⟨3, 9, 60, ⟨2024, 4, 20⟩, 30, "cc"⟩]
        (fun i => ⟨i, "u"⟩) 9 ⟨2024, 4, 20⟩).entries.map
          (fun e => (e.position, e.seconds)) = [(1, 30), (1, 30), (2, 45)] := by
  refine ⟨?_, ?_, by decide⟩
  · intro store mo gid date
    refine ⟨List.sorted_insertionSort Minibot.solveLE _,
      List.perm_insertionSort Minibot.solveLE _,
      by simp [Minibot.get_leaderboard, rankLoop_length],
      mini_entries_head store mo gid date,
      mini_entries_adjacent store mo gid date⟩
  · intro store mo gid v diff
    refine ⟨List.sorted_insertionSort Pipbot.solveLE _,
      List.perm_insertionSort Pipbot.solveLE _,
      by simp [Pipbot.get_leaderboard, rankLoop_length],
      pip_entries_head store mo gid v diff,
      pip_entries_adjacent store mo gid v diff⟩

theorem claim_C2_witness :
    ((Minibot.get_leaderboard
        [⟨1, 9, 100, ⟨2024, 4, 20⟩, 45, "aa"⟩, ⟨2, 9, 50, ⟨2024, 4, 20⟩, 30, "bb"⟩,
         ⟨3, 9, 60, ⟨2024, 4, 20⟩, 30, "cc"⟩]
        (fun i => ⟨i, "u"⟩) 9 ⟨2024, 4, 20⟩).entries.get ⟨0, by decide⟩).position = 1 :=
  (claim_C2.1
      [⟨1, 9, 100, ⟨2024, 4, 20⟩, 45, "aa"⟩, ⟨2, 9, 50, ⟨2024, 4, 20⟩, 30, "bb"⟩,
       ⟨3, 9, 60, ⟨2024, 4, 20⟩, 30, "cc"⟩]
      (fun i => ⟨i, "u"⟩) 9 ⟨2024, 4, 20⟩).2.2.2.1 (by decide)
